import Mathlib

/-! # Native query editor: completion sources

A shallow embedding of the two completion sources of
`frontend/src/metabase/query_builder/components/NativeQueryEditor.jsx`:

* `getCompletions`, the schema / referenced-question completer with its
  one-slot time-windowed cache `this._lastAutoComplete`;
* `getSnippetNameAtCursor` and `getSnippetCompletions`, the snippet detector
  and the snippet completer.

JavaScript strings are modelled as lists of characters (one character per
position that `slice` and the regular expression count), promises as `Except`
values (a rejection is `Except.error`), `null` / `undefined` as `none`, and
the mutable slot `this._lastAutoComplete` by explicit state passing.  One run
of `getCompletions` is modelled without another run interleaving at its
`await`s.  The
built-in `String.prototype.toLowerCase` is a parameter `toLowerCase` of the
definitions that use it, so every general theorem holds for whatever lowering
function the host provides; `asciiToLowerCase` instantiates it on concrete
inputs.
-/

namespace NativeQueryEditor

/-! ## Data model -/

/-- A JavaScript string, as the sequence of its characters. -/
abbrev JsString := List Char

/-- What a `throw` or a rejected promise carries. -/
inductive JsError where
  /-- a promise rejected by an external collaborator -/
  | rejected (reason : JsString)
  /-- a property read or method call on `undefined` / `null` -/
  | typeError
  deriving DecidableEq, Repr

deriving instance DecidableEq for Except

/-- `const AUTOCOMPLETE_DEBOUNCE_DURATION = 700;` (milliseconds). -/
def AUTOCOMPLETE_DEBOUNCE_DURATION : Nat := 700

/-- `const AUTOCOMPLETE_CACHE_DURATION = AUTOCOMPLETE_DEBOUNCE_DURATION * 1.2;`
The double-precision product `700 * 1.2` is exactly `840`, and the value is
only ever compared with a difference of two integer timestamps. -/
def AUTOCOMPLETE_CACHE_DURATION : Nat := AUTOCOMPLETE_DEBOUNCE_DURATION * 12 / 10

/-- One entry of `question.result_metadata`. -/
structure ColumnMetadata where
  name : JsString
  base_type : JsString
  deriving DecidableEq, Repr

/-- A referenced question as `fetchQuestion` delivers it.  `result_metadata`
is `none` when the property is missing (`undefined` or `null`). -/
structure Question where
  name : JsString
  result_metadata : Option (List ColumnMetadata)
  deriving DecidableEq, Repr

/-- A native query snippet of `this.props.snippets`. -/
structure Snippet where
  name : JsString
  description : JsString
  content : JsString
  deriving DecidableEq, Repr

/-- A raw completion result: the pair `[name, annotation]`. -/
abbrev RawResult := JsString × JsString

/-- The slot `this._lastAutoComplete`: `{ timestamp, prefix, results }`.
`cachedPrefix` is the `prefix` property; it is `none` for the initial
`prefix: null`. -/
structure LastAutoComplete where
  timestamp : Int
  cachedPrefix : Option JsString
  results : List RawResult
  deriving DecidableEq, Repr

/-- `this._lastAutoComplete = { timestamp: 0, prefix: null, results: [] };` -/
def initialAutoComplete : LastAutoComplete :=
  { timestamp := 0, cachedPrefix := none, results := [] }

/-- A completion object handed to Ace: `{ name, value, meta }`; the snippet
completer builds objects without a `meta` property. -/
structure AceCompletion where
  name : JsString
  value : JsString
  meta : Option JsString
  deriving DecidableEq, Repr

/-- The props and collaborators `getCompletions` reads:
`this.props.autocompleteResultsFn` (absent when not configured),
`this.props.query.referencedQuestionIds()` and `this.props.fetchQuestion`. -/
structure Props where
  autocompleteResultsFn : Option (JsString → Except JsError (List RawResult))
  referencedQuestionIds : List Nat
  fetchQuestion : Nat → Except JsError (Option Question)

/-- What one run of `getCompletions` leaves behind: the cache slot afterwards,
the two arguments given to `callback`, the prefixes with which the
schema-lookup provider was invoked, and whether the `catch` branch logged. -/
structure Outcome where
  lastAutoComplete : LastAutoComplete
  callbackError : Option JsError
  completions : List AceCompletion
  providerCalls : List JsString
  logged : Bool

/-! ## Built-ins -/

/-- ASCII lowering, agreeing with `String.prototype.toLowerCase` on ASCII
text. -/
def asciiToLowerCase (s : JsString) : JsString := s.map Char.toLower

/-- `s.includes(t)`: does `t` occur in `s` as a contiguous run? -/
def includes : JsString → JsString → Bool
  | [], t => t.isEmpty
  | c :: s, t => t.isPrefixOf (c :: s) || includes s t

/-- `Promise.all` over already-settled promises: every value, or a
rejection when some promise rejected. -/
def promiseAll {α : Type} : List (Except JsError α) → Except JsError (List α)
  | [] => .ok []
  | .error e :: _ => .error e
  | .ok a :: rest =>
    match promiseAll rest with
    | .error e => .error e
    | .ok as => .ok (a :: as)

/-- `xs.flatMap(f)` for a callback that may throw. -/
def flatMapThrowing {α β : Type} (f : α → Except JsError (List β)) :
    List α → Except JsError (List β)
  | [] => .ok []
  | a :: rest =>
    match f a with
    | .error e => .error e
    | .ok bs =>
      match flatMapThrowing f rest with
      | .error e => .error e
      | .ok cs => .ok (bs ++ cs)

/-! ## `getCompletions` -/

section Completions

variable (toLowerCase : JsString → JsString)

/-- `const isMatchForPrefix = name => name.toLowerCase().includes(lowerCasePrefix);`
with `lowerCasePrefix = prefix.toLowerCase()`. -/
def isMatchForPrefix (pfx name : JsString) : Bool :=
  includes (toLowerCase name) (toLowerCase pfx)

/-- The callback of the `flatMap`: the matching columns of one question, each
as `[columnMetadata.name, question.name + " :" + columnMetadata.base_type]`.
A missing `result_metadata` makes `.filter` throw. -/
def columnsOfQuestion (pfx : JsString) (question : Question) :
    Except JsError (List RawResult) :=
  match question.result_metadata with
  | none => .error .typeError
  | some columns =>
    .ok ((columns.filter (fun columnMetadata =>
            isMatchForPrefix toLowerCase pfx columnMetadata.name)).map
          (fun columnMetadata =>
            (columnMetadata.name,
              question.name ++ [' ', ':'] ++ columnMetadata.base_type)))

/-- `referencedQuestions.filter(Boolean).flatMap(question => ...)`. -/
def questionColumns (pfx : JsString) (referencedQuestions : List (Option Question)) :
    Except JsError (List RawResult) :=
  flatMapThrowing (columnsOfQuestion toLowerCase pfx)
    (referencedQuestions.filterMap id)

/-- `results.map(result => ({ name: result[0], value: result[0], meta: result[1] }))`. -/
def resultsForAce (results : List RawResult) : List AceCompletion :=
  results.map (fun result =>
    { name := result.1, value := result.1, meta := some result.2 })

/-- `Date.now() - timestamp < AUTOCOMPLETE_CACHE_DURATION &&
this._lastAutoComplete.prefix === prefix`. -/
def cacheHit (cache : LastAutoComplete) (now : Int) (pfx : JsString) : Bool :=
  decide (now - cache.timestamp < (AUTOCOMPLETE_CACHE_DURATION : Int)) &&
    decide (cache.cachedPrefix = some pfx)

/-- The part of the `try` block after a successful provider call: the reads of
the referenced questions and the merge.  It runs after the cache slot has been
overwritten. -/
def mergeWithQuestions (props : Props) (pfx : JsString) (apiResults : List RawResult) :
    Except JsError (List RawResult) :=
  match promiseAll (props.referencedQuestionIds.map props.fetchQuestion) with
  | .error e => .error e
  | .ok referencedQuestions =>
    match questionColumns toLowerCase pfx referencedQuestions with
    | .error e => .error e
    | .ok columns => .ok (columns ++ apiResults)

/-- One run of the completer registered with `aceLanguageTools.addCompleter`.
`cache` is `this._lastAutoComplete` on entry, `now` the first `Date.now()`
reading (the validity test) and `storeTime` the second (the stamp of the new
entry).  The local `results` is read from the slot on entry, and it is that
value which the assignment to `this._lastAutoComplete` stores. -/
def getCompletions (props : Props) (cache : LastAutoComplete) (now storeTime : Int)
    (pfx : JsString) : Outcome :=
  match props.autocompleteResultsFn with
  | none =>
    { lastAutoComplete := cache, callbackError := none, completions := [],
      providerCalls := [], logged := false }
  | some autocompleteResultsFn =>
    let results := cache.results
    if cacheHit cache now pfx then
      { lastAutoComplete := cache, callbackError := none,
        completions := resultsForAce results, providerCalls := [], logged := false }
    else
      match autocompleteResultsFn pfx with
      | .error _ =>
        { lastAutoComplete := cache, callbackError := none, completions := [],
          providerCalls := [pfx], logged := true }
      | .ok apiResults =>
        let stored : LastAutoComplete :=
          { timestamp := storeTime, cachedPrefix := some pfx, results := results }
        match mergeWithQuestions toLowerCase props pfx apiResults with
        | .error _ =>
          { lastAutoComplete := stored, callbackError := none, completions := [],
            providerCalls := [pfx], logged := true }
        | .ok merged =>
          { lastAutoComplete := stored, callbackError := none,
            completions := resultsForAce merged, providerCalls := [pfx],
            logged := false }

end Completions

/-! ## The snippet detector and the snippet completer -/

/-- The character class `\s` of a JavaScript regular expression: the
white-space characters and the line terminators. -/
def isWhiteSpace (c : Char) : Bool :=
  let n := c.toNat
  n == 9 || n == 10 || n == 11 || n == 12 || n == 13 || n == 32 || n == 160 ||
    n == 5760 || (8192 ≤ n && n ≤ 8202) || n == 8232 || n == 8233 || n == 8239 ||
    n == 8287 || n == 12288 || n == 65279

/-- The character class `[^\}]`. -/
def notClosingBrace (c : Char) : Bool := c != '}'

/-- The pieces a regular expression such as the snippet pattern is made of. -/
inductive RegexItem where
  /-- a literal character -/
  | char (c : Char)
  /-- a greedy `x*` over a character class -/
  | star (cls : Char → Bool)
  /-- capture group 1 around a greedy `x*`: `(x*)` -/
  | groupStar (cls : Char → Bool)
  /-- the anchor `$` (without the multiline flag: the end of the input) -/
  | endOfInput

/-- A greedy, backtracking `x*`: consume as many characters of the class as
possible and give back one at a time while the continuation `k` fails.  `k`
receives the run consumed and the rest of the input. -/
def greedyStar {R : Type} (cls : Char → Bool) (k : JsString → JsString → Option R)
    (taken : JsString) : JsString → Option R
  | [] => k taken []
  | c :: rest =>
    if cls c then
      match greedyStar cls k (taken ++ [c]) rest with
      | some r => some r
      | none => k taken (c :: rest)
    else k taken (c :: rest)

/-- Match the items at the start of `input`, backtracking; a success yields
capture group 1 (`none` while the group has not taken part). -/
def matchHere : List RegexItem → Option JsString → JsString → Option (Option JsString)
  | [], capture, _ => some capture
  | .char c :: items, capture, input =>
    match input with
    | [] => none
    | x :: rest => if x = c then matchHere items capture rest else none
  | .star cls :: items, capture, input =>
    greedyStar cls (fun _ rest => matchHere items capture rest) [] input
  | .groupStar cls :: items, _, input =>
    greedyStar cls (fun taken rest => matchHere items (some taken) rest) [] input
  | .endOfInput :: items, capture, input =>
    match input with
    | [] => matchHere items capture []
    | _ :: _ => none

/-- `input.match(regex)` for a regex without the global flag: the match at the
leftmost start position at which the pattern matches, `none` when there is
none.  The value is capture group 1 of that match. -/
def regexMatch (items : List RegexItem) : JsString → Option (Option JsString)
  | [] => matchHere items none []
  | c :: rest =>
    match matchHere items none (c :: rest) with
    | some capture => some capture
    | none => regexMatch items rest

/-- The regular expression `/\{\{\s*snippet:\s*([^\}]*)$/`. -/
def snippetPattern : List RegexItem :=
  [.char '{', .char '{', .star isWhiteSpace,
   .char 's', .char 'n', .char 'i', .char 'p', .char 'p', .char 'e', .char 't', .char ':',
   .star isWhiteSpace, .groupStar notClosingBrace, .endOfInput]

/-- `text.split("\n")`. -/
def splitLines : JsString → List JsString
  | [] => [[]]
  | c :: rest =>
    if c = '\n' then [] :: splitLines rest
    else
      match splitLines rest with
      | [] => [[c]]
      | line :: lines => (c :: line) :: lines

/-- `linePrefix.match(/\{\{\s*snippet:\s*([^\}]*)$/)` followed by
`match ? match[1] : null`. -/
def snippetNameOfLinePrefix (linePrefix : JsString) : Option JsString :=
  match regexMatch snippetPattern linePrefix with
  | some capture => capture
  | none => none

/-- `getSnippetNameAtCursor = ({ row, column }) => ...` on the editor text
`value`.  `lines[row]` is `undefined` for a row past the last line, and
`.slice` on it throws. -/
def getSnippetNameAtCursor (value : JsString) (row column : Nat) :
    Except JsError (Option JsString) :=
  match (splitLines value)[row]? with
  | none => .error .typeError
  | some line => .ok (snippetNameOfLinePrefix (line.take column))

/-- `xs.filter(f)` for a callback that may throw. -/
def filterThrowing {α : Type} (f : α → Except JsError Bool) :
    List α → Except JsError (List α)
  | [] => .ok []
  | a :: rest =>
    match f a with
    | .error e => .error e
    | .ok keep =>
      match filterThrowing f rest with
      | .error e => .error e
      | .ok kept => .ok (if keep then a :: kept else kept)

section Snippets

variable (toLowerCase : JsString → JsString)

/-- The callback `snippet => snippet.name.toLowerCase().includes(name.toLowerCase())`;
with `name` being `null` the call `name.toLowerCase()` throws. -/
def snippetMatches (name : Option JsString) (snippet : Snippet) : Except JsError Bool :=
  match name with
  | none => .error .typeError
  | some name => .ok (includes (toLowerCase snippet.name) (toLowerCase name))

/-- `({ name, description, content }) => ({ name, value: name })`. -/
def snippetCompletion (snippet : Snippet) : AceCompletion :=
  { name := snippet.name, value := snippet.name, meta := none }

/-- `getSnippetCompletions = (editor, session, pos, prefix, callback) => ...`:
the sequence handed to `callback(null, ...)`, or the error thrown before the
callback is reached.  `snippets` is `this.props.snippets`, `none` when the
prop is absent. -/
def getSnippetCompletions (value : JsString) (row column : Nat)
    (snippets : Option (List Snippet)) : Except JsError (List AceCompletion) :=
  match getSnippetNameAtCursor value row column with
  | .error e => .error e
  | .ok name =>
    match filterThrowing (snippetMatches toLowerCase name) (snippets.getD []) with
    | .error e => .error e
    | .ok kept => .ok (kept.map snippetCompletion)

end Snippets

/-- The two values `this._editor.completers` is switched between:
`snippetCompleter = [{ getCompletions: this.getSnippetCompletions }]` and
`allCompleters`, the completers registered when the editor was set up. -/
inductive Completers where
  | snippetCompleter
  | allCompleters
  deriving DecidableEq, Repr

/-- `this.swapInCorrectCompletors = pos => ...`: the value assigned to
`this._editor.completers`, with
`isInSnippet = this.getSnippetNameAtCursor(pos) !== null`. -/
def swapInCorrectCompletors (value : JsString) (row column : Nat) :
    Except JsError Completers :=
  match getSnippetNameAtCursor value row column with
  | .error e => .error e
  | .ok name =>
    let isInSnippet := name != none
    .ok (if isInSnippet then .snippetCompleter else .allCompleters)

/-! ## Specification-level definitions and sample collaborators -/

/-- The letters of the literal `snippet:`. -/
def snippetLiteral : JsString := ['s', 'n', 'i', 'p', 'p', 'e', 't', ':']

/-- In the words of the specification: `v` opens a snippet reference that
is still open at its end, with `g` the text typed after the opening:
`v` is `{{`, white space, `snippet:`, white space, then `g` free of `}`. -/
def IsSnippetOpening (v g : JsString) : Prop :=
  ∃ w1 w2 : JsString, v = ['{', '{'] ++ w1 ++ snippetLiteral ++ w2 ++ g
    ∧ (∀ c ∈ w1, isWhiteSpace c = true) ∧ (∀ c ∈ w2, isWhiteSpace c = true)
    ∧ '}' ∉ g

/-- In the words of the specification: somewhere in `linePrefix` a snippet
reference opens and is still open at the end of `linePrefix`. -/
def InsideSnippetReference (linePrefix : JsString) : Prop :=
  ∃ u v g : JsString, linePrefix = u ++ v ∧ IsSnippetOpening v g

/-- A referenced question with two result columns. -/
def ordersQuestion : Question :=
  { name := "Orders".toList,
    result_metadata := some
      [{ name := "ORDER_ID".toList, base_type := "type/Integer".toList },
       { name := "vendor".toList, base_type := "type/Text".toList },
       { name := "total".toList, base_type := "type/Float".toList }] }

/-- A referenced question whose `result_metadata` is missing. -/
def unrunQuestion : Question :=
  { name := "Unrun".toList, result_metadata := none }

/-- A question store: id 1 is `ordersQuestion`, id 2 is `unrunQuestion`, any
other id yields nothing. -/
def sampleFetchQuestion : Nat → Except JsError (Option Question)
  | 1 => .ok (some ordersQuestion)
  | 2 => .ok (some unrunQuestion)
  | _ => .ok none

/-- A schema-lookup provider that answers every prefix with two tables. -/
def sampleProvider : JsString → Except JsError (List RawResult) :=
  fun _ => .ok [("orders".toList, "TABLE".toList), ("organizations".toList, "TABLE".toList)]

/-- A schema-lookup provider that rejects. -/
def rejectingProvider : JsString → Except JsError (List RawResult) :=
  fun _ => .error (.rejected "network".toList)

/-- In the words of the specification: what one referenced id contributes for
the prefix `p`.  `fetched id` is the question the store yields for `id` (its
name and its result columns) or `none` when the fetch yields nothing.  The
contribution is, in column order, every column whose name contains `p`
case-insensitively, as `(column name, "<question name> :<base type>")`. -/
def contributionOfId (toLowerCase : JsString → JsString) (p : JsString)
    (fetched : Nat → Option (JsString × List ColumnMetadata)) (id : Nat) : List RawResult :=
  match fetched id with
  | none => []
  | some (questionName, columns) =>
    (columns.filter (fun column => decide (toLowerCase p <:+: toLowerCase column.name))).map
      (fun column => (column.name, questionName ++ " :".toList ++ column.base_type))

/-- In the words of the specification: the referenced-question part of a
result, the contributions of the ids concatenated in id order. -/
def referencedColumnsSpec (toLowerCase : JsString → JsString) (p : JsString)
    (fetched : Nat → Option (JsString × List ColumnMetadata)) (ids : List Nat) :
    List RawResult :=
  ids.flatMap (contributionOfId toLowerCase p fetched)

/-- In the words of the specification, over the questions as the store
delivers them: the concatenation, in id order and then column order, over the
fetched questions only, of the result-metadata columns whose name contains `p`
case-insensitively.  A question without result metadata has no such column. -/
def claimedReferencedColumns (toLowerCase : JsString → JsString) (p : JsString)
    (referencedQuestions : List (Option Question)) : List RawResult :=
  (referencedQuestions.filterMap id).flatMap (fun question =>
    ((question.result_metadata.getD []).filter
        (fun column => decide (toLowerCase p <:+: toLowerCase column.name))).map
      (fun column => (column.name, question.name ++ " :".toList ++ column.base_type)))

/-- The question object for a name and its result columns. -/
def questionOf (q : JsString × List ColumnMetadata) : Question :=
  { name := q.1, result_metadata := some q.2 }

/-- The `fetchQuestion` that never rejects and yields what `fetched` says. -/
def storeOf (fetched : Nat → Option (JsString × List ColumnMetadata)) :
    Nat → Except JsError (Option Question) :=
  fun id => .ok ((fetched id).map questionOf)

/-- Question 1 is `Orders` with its three columns; no other id is known. -/
def sampleFetched : Nat → Option (JsString × List ColumnMetadata)
  | 1 => some ("Orders".toList,
      [{ name := "ORDER_ID".toList, base_type := "type/Integer".toList },
       { name := "vendor".toList, base_type := "type/Text".toList },
       { name := "total".toList, base_type := "type/Float".toList }])
  | _ => none

end NativeQueryEditor

/-! # Action form settings: `metabase/entities/actions/utils.ts`

A JavaScript object used as a map is modelled by the list of its own entries in
enumeration order.  The maps `dateTypetoParameterTypeMap` and
`fieldTypeToParameterTypeMap` of `./constants` are parameters of the
definitions that read them, a missing entry being `none`. -/

namespace ActionsUtils

open NativeQueryEditor (JsString)

/-- The settings of one form field: the two properties read here, and
`others` for every other property. -/
structure FieldSettings (φ : Type) where
  fieldType : JsString
  inputType : JsString
  others : φ

/-- `ActionFormSettings`: the object `fields`, keyed by field id, and
`others` for every other property. -/
structure ActionFormSettings (φ ρ : Type) where
  fields : List (JsString × FieldSettings φ)
  others : ρ

/-- `ParameterObject`: `id`, `type`, and `others` for every other property. -/
structure ParameterObject (π : Type) where
  id : JsString
  type : JsString
  others : π

/-- `Object.keys(obj)`. -/
def objectKeys {V : Type} (obj : List (JsString × V)) : List JsString :=
  obj.map (fun entry => entry.1)

/-- `obj[key]`, `none` standing for `undefined`. -/
def getProperty {V : Type} : List (JsString × V) → JsString → Option V
  | [], _ => none
  | entry :: rest, key => if entry.1 = key then some entry.2 else getProperty rest key

/-- `_.difference(array, others)`: the values of `array` that are not present
in `others`, in the order of `array`. -/
def difference (array others : List JsString) : List JsString :=
  array.filter (fun value => !others.contains value)

/-- `_.omit(obj, keys)`: a copy of `obj` without the entries whose key is
listed in `keys`. -/
def omitKeys {V : Type} (obj : List (JsString × V)) (keys : List JsString) :
    List (JsString × V) :=
  obj.filter (fun entry => !keys.contains entry.1)

/-- `export const removeOrphanSettings = (settings, parameters) => ...`. -/
def removeOrphanSettings {φ ρ π : Type} (settings : ActionFormSettings φ ρ)
    (parameters : List (ParameterObject π)) : ActionFormSettings φ ρ :=
  let parameterIds := parameters.map (fun p => p.id)
  let fieldIds := objectKeys settings.fields
  let orphanIds := difference fieldIds parameterIds
  { settings with fields := omitKeys settings.fields orphanIds }

section ParameterTypes

variable (dateTypetoParameterTypeMap fieldTypeToParameterTypeMap : JsString → Option JsString)

/-- `const getParameterTypeFromFieldSettings = (fieldType, inputType) => ...`. -/
def getParameterTypeFromFieldSettings (fieldType inputType : JsString) : JsString :=
  if fieldType = "date".toList then
    (dateTypetoParameterTypeMap inputType).getD "date/single".toList
  else
    (fieldTypeToParameterTypeMap fieldType).getD "string/=".toList

/-- `export const setParameterTypesFromFieldSettings = (settings, parameters) => ...`. -/
def setParameterTypesFromFieldSettings {φ ρ π : Type} (settings : ActionFormSettings φ ρ)
    (parameters : List (ParameterObject π)) : List (ParameterObject π) :=
  let fields := settings.fields
  parameters.map (fun parameter =>
    let field := getProperty fields parameter.id
    { parameter with
      type :=
        match field with
        | some field =>
          getParameterTypeFromFieldSettings dateTypetoParameterTypeMap
            fieldTypeToParameterTypeMap field.fieldType field.inputType
        | none => "string/=".toList })

end ParameterTypes

/-- A sample date map: `datetime` has an entry, nothing else has. -/
def sampleDateMap : JsString → Option JsString :=
  fun inputType =>
    if inputType = "datetime".toList then some "date/all-options".toList else none

/-- A sample field-type map: `number` has an entry, nothing else has. -/
def sampleFieldTypeMap : JsString → Option JsString :=
  fun fieldType => if fieldType = "number".toList then some "number/=".toList else none

/-- Sample settings with four fields: `a` a date field with a mapped input
type, `b` a date field with an unmapped one, `c` a number field, `e` a field of
an unmapped type. -/
def sampleSettings : ActionFormSettings Unit Unit :=
  { fields :=
      [("a".toList, ⟨"date".toList, "datetime".toList, ()⟩),
       ("b".toList, ⟨"date".toList, "date".toList, ()⟩),
       ("c".toList, ⟨"number".toList, "number".toList, ()⟩),
       ("e".toList, ⟨"category".toList, "dropdown".toList, ()⟩)],
    others := () }

/-- Sample parameters `a`, `b`, `c`, `d`, `e`; `d` has no field. -/
def sampleParameters : List (ParameterObject Nat) :=
  [⟨"a".toList, [], 1⟩, ⟨"b".toList, [], 2⟩, ⟨"c".toList, [], 3⟩,
   ⟨"d".toList, "number/=".toList, 4⟩, ⟨"e".toList, [], 5⟩]

end ActionsUtils

namespace NativeQueryEditor

/-! ## Lemmas on the built-ins -/

theorem includes_iff (s t : JsString) : includes s t = true ↔ t <:+: s := by
  induction s with
  | nil => simp [includes]
  | cons c s ih =>
    rw [includes, Bool.or_eq_true, ih, List.infix_cons_iff]
    simp

theorem greedyStar_of_fails {R : Type} (cls : Char → Bool)
    (k : JsString → JsString → Option R)
    (hk : ∀ t c rest, cls c = true → k t (c :: rest) = none)
    (taken input : JsString) :
    greedyStar cls k taken input
      = k (taken ++ input.takeWhile cls) (input.dropWhile cls) := by
  induction input generalizing taken with
  | nil => simp [greedyStar]
  | cons c rest ih =>
    by_cases hc : cls c = true
    · rw [greedyStar, if_pos hc, ih]
      simp only [List.takeWhile_cons, List.dropWhile_cons, hc, if_true]
      cases hres : k (taken ++ [c] ++ List.takeWhile cls rest) (List.dropWhile cls rest) with
      | some r =>
        have h2 : taken ++ c :: List.takeWhile cls rest
            = taken ++ [c] ++ List.takeWhile cls rest := by simp
        rw [h2, hres]
      | none =>
        have h2 : taken ++ c :: List.takeWhile cls rest
            = taken ++ [c] ++ List.takeWhile cls rest := by simp
        rw [h2, hres]
        exact hk taken c rest hc
    · rw [greedyStar, if_neg hc]
      simp [List.takeWhile_cons, List.dropWhile_cons, hc]

/-! ## The snippet pattern, item by item -/

theorem matchHere_char_iff (c : Char) (items : List RegexItem) (capture : Option JsString)
    (input : JsString) (r : Option JsString) :
    matchHere (.char c :: items) capture input = some r
      ↔ ∃ rest, input = c :: rest ∧ matchHere items capture rest = some r := by
  cases input with
  | nil => simp [matchHere]
  | cons x rest =>
    by_cases hx : x = c
    · subst hx; simp [matchHere]
    · simp [matchHere, hx]

theorem matchHere_endOfInput (capture : Option JsString) (input : JsString) :
    matchHere [.endOfInput] capture input = if input = [] then some capture else none := by
  cases input <;> simp [matchHere]

theorem matchHere_group (capture : Option JsString) (input : JsString) :
    matchHere [.groupStar notClosingBrace, .endOfInput] capture input
      = if input.all notClosingBrace = true then some (some input) else none := by
  rw [matchHere, greedyStar_of_fails]
  · rw [matchHere_endOfInput]
    by_cases h : input.all notClosingBrace = true
    · have h1 : ∀ x ∈ input, notClosingBrace x = true := by simpa using h
      have h2 : input.dropWhile notClosingBrace = [] := List.dropWhile_eq_nil_iff.mpr h1
      have h3 : input.takeWhile notClosingBrace = input := List.takeWhile_eq_self_iff.mpr h1
      simp [h, h2, h3]
    · have h2 : input.dropWhile notClosingBrace ≠ [] := by
        intro h2
        exact h (by simpa using List.dropWhile_eq_nil_iff.mp h2)
      simp [h, h2]
  · intro t c rest _
    simp [matchHere]

theorem notClosingBrace_of_isWhiteSpace (c : Char) (h : isWhiteSpace c = true) :
    notClosingBrace c = true := by
  by_cases hc : c = '}'
  · subst hc; exact absurd h (by decide)
  · simp [notClosingBrace, hc]

theorem greedyStar_whiteSpace_group (capture : Option JsString) (taken input : JsString) :
    greedyStar isWhiteSpace
        (fun _ rest => matchHere [.groupStar notClosingBrace, .endOfInput] capture rest)
        taken input
      = if input.all notClosingBrace = true then some (some (input.dropWhile isWhiteSpace))
        else none := by
  induction input generalizing taken with
  | nil => simp [greedyStar, matchHere_group]
  | cons c rest ih =>
    by_cases hc : isWhiteSpace c = true
    · rw [greedyStar, if_pos hc, ih]
      have hb := notClosingBrace_of_isWhiteSpace c hc
      by_cases hr : rest.all notClosingBrace = true
      · simp [hr, hb, hc, List.dropWhile_cons]
      · simp [hr, hb, hc, matchHere_group]
    · rw [greedyStar, if_neg hc]
      simp [matchHere_group, List.dropWhile_cons, hc]

theorem matchHere_tail (capture : Option JsString) (input : JsString) :
    matchHere [.star isWhiteSpace, .groupStar notClosingBrace, .endOfInput] capture input
      = if input.all notClosingBrace = true then some (some (input.dropWhile isWhiteSpace))
        else none := by
  rw [matchHere]
  exact greedyStar_whiteSpace_group capture [] input

theorem matchHere_snippetPattern_iff (input : JsString) (r : Option JsString) :
    matchHere snippetPattern none input = some r
      ↔ ∃ rest tail, input = '{' :: '{' :: rest
          ∧ rest.dropWhile isWhiteSpace = snippetLiteral ++ tail
          ∧ tail.all notClosingBrace = true
          ∧ r = some (tail.dropWhile isWhiteSpace) := by
  unfold snippetPattern
  rw [matchHere_char_iff]
  constructor
  · rintro ⟨r1, rfl, h⟩
    rw [matchHere_char_iff] at h
    obtain ⟨rest, rfl, h⟩ := h
    rw [matchHere, greedyStar_of_fails] at h
    · simp only [matchHere_char_iff] at h
      obtain ⟨t1, h1, t2, rfl, t3, rfl, t4, rfl, t5, rfl, t6, rfl, t7, rfl, tail, rfl, h⟩ := h
      rw [matchHere_tail] at h
      refine ⟨rest, tail, rfl, h1, ?_, ?_⟩
      · by_contra hall
        simp [hall] at h
      · by_cases hall : tail.all notClosingBrace = true
        · rw [if_pos hall] at h
          exact (Option.some.inj h).symm
        · simp [hall] at h
    · intro t c rest hc
      cases hm : matchHere (RegexItem.char 's' :: _) none (c :: rest) with
      | none => rfl
      | some v =>
        rw [matchHere_char_iff] at hm
        obtain ⟨_, hcs, _⟩ := hm
        have : c = 's' := (List.cons.inj hcs).1
        subst this
        exact absurd hc (by decide)
  · rintro ⟨rest, tail, rfl, h1, hall, rfl⟩
    refine ⟨_, rfl, ?_⟩
    rw [matchHere_char_iff]
    refine ⟨_, rfl, ?_⟩
    rw [matchHere, greedyStar_of_fails]
    · rw [h1]
      simp only [snippetLiteral, List.cons_append, List.nil_append, matchHere_char_iff]
      refine ⟨_, rfl, _, rfl, _, rfl, _, rfl, _, rfl, _, rfl, _, rfl, _, rfl, ?_⟩
      rw [matchHere_tail, if_pos hall]
    · intro t c rest hc
      cases hm : matchHere (RegexItem.char 's' :: _) none (c :: rest) with
      | none => rfl
      | some v =>
        rw [matchHere_char_iff] at hm
        obtain ⟨_, hcs, _⟩ := hm
        have : c = 's' := (List.cons.inj hcs).1
        subst this
        exact absurd hc (by decide)

/-! ## Leftmost search -/

theorem regexMatch_eq_none_iff (items : List RegexItem) (s : JsString) :
    regexMatch items s = none ↔ ∀ u v, s = u ++ v → matchHere items none v = none := by
  induction s with
  | nil =>
    constructor
    · intro h u v huv
      have hv : v = [] := (List.append_eq_nil.mp huv.symm).2
      subst hv
      simpa [regexMatch] using h
    · intro h
      simpa [regexMatch] using h [] [] rfl
  | cons c rest ih =>
    constructor
    · intro h u v huv
      rw [regexMatch] at h
      cases hm : matchHere items none (c :: rest) with
      | some r => simp [hm] at h
      | none =>
        simp only [hm] at h
        cases u with
        | nil =>
          have hvc : v = c :: rest := by simpa using huv.symm
          rw [hvc]
          exact hm
        | cons a u =>
          have : rest = u ++ v := (List.cons.inj huv).2
          exact ih.mp h u v this
    · intro h
      rw [regexMatch, h [] (c :: rest) rfl]
      exact ih.mpr (fun u v huv => h (c :: u) v (by simp [huv]))

theorem regexMatch_leftmost (items : List RegexItem) (u v : JsString) (r : Option JsString)
    (hv : matchHere items none v = some r)
    (hu : ∀ u1 u2, u = u1 ++ u2 → u2 ≠ [] → matchHere items none (u2 ++ v) = none) :
    regexMatch items (u ++ v) = some r := by
  induction u with
  | nil =>
    cases v with
    | nil => simpa [regexMatch] using hv
    | cons c rest => simp [regexMatch, hv]
  | cons a u ih =>
    have h0 : matchHere items none (a :: (u ++ v)) = none := by
      simpa using hu [] (a :: u) rfl (by simp)
    rw [List.cons_append, regexMatch, h0]
    exact ih (fun u1 u2 h12 hne => hu (a :: u1) u2 (by simp [h12]) hne)

theorem regexMatch_some (items : List RegexItem) (s : JsString) (r : Option JsString)
    (h : regexMatch items s = some r) :
    ∃ u v, s = u ++ v ∧ matchHere items none v = some r
      ∧ ∀ u1 u2, u = u1 ++ u2 → u2 ≠ [] → matchHere items none (u2 ++ v) = none := by
  induction s with
  | nil =>
    refine ⟨[], [], rfl, by simpa [regexMatch] using h, ?_⟩
    intro u1 u2 h12 hne
    exact absurd (List.append_eq_nil.mp h12.symm).2 hne
  | cons c rest ih =>
    rw [regexMatch] at h
    cases hm : matchHere items none (c :: rest) with
    | some r0 =>
      simp only [hm] at h
      refine ⟨[], c :: rest, rfl, by rw [hm, h], ?_⟩
      intro u1 u2 h12 hne
      exact absurd (List.append_eq_nil.mp h12.symm).2 hne
    | none =>
      simp only [hm] at h
      obtain ⟨u, v, huv, hv, hleft⟩ := ih h
      refine ⟨c :: u, v, by simp [huv], hv, ?_⟩
      intro u1 u2 h12 hne
      cases u1 with
      | nil =>
        have : u2 = c :: u := by simpa using h12.symm
        subst this
        simpa [← huv] using hm
      | cons a u1 =>
        exact hleft u1 u2 (List.cons.inj h12).2 hne

/-! ## The pattern in the words of the specification -/

theorem dropWhile_append_of_forall {p : Char → Bool} (l1 l2 : JsString)
    (h : ∀ x ∈ l1, p x = true) : (l1 ++ l2).dropWhile p = l2.dropWhile p := by
  induction l1 with
  | nil => rfl
  | cons a l1 ih =>
    have ha : p a = true := h a (by simp)
    rw [List.cons_append, List.dropWhile_cons, if_pos ha]
    exact ih (fun x hx => h x (by simp [hx]))

theorem matchHere_snippetPattern_of_opening (v g : JsString) (h : IsSnippetOpening v g) :
    matchHere snippetPattern none v = some (some (g.dropWhile isWhiteSpace)) := by
  obtain ⟨w1, w2, rfl, h1, h2, hg⟩ := h
  rw [matchHere_snippetPattern_iff]
  refine ⟨w1 ++ snippetLiteral ++ w2 ++ g, w2 ++ g, by simp, ?_, ?_, ?_⟩
  · rw [List.append_assoc, List.append_assoc, dropWhile_append_of_forall _ _ h1]
    have hs : isWhiteSpace 's' = false := by decide
    simp [snippetLiteral, List.dropWhile_cons, hs]
  · simp only [List.all_append, Bool.and_eq_true, List.all_eq_true]
    refine ⟨fun c hc => notClosingBrace_of_isWhiteSpace c (h2 c hc), fun c hc => ?_⟩
    have : c ≠ '}' := fun hcb => hg (hcb ▸ hc)
    simp [notClosingBrace, this]
  · rw [dropWhile_append_of_forall _ _ h2]

theorem opening_of_matchHere_snippetPattern (v : JsString) (r : Option JsString)
    (h : matchHere snippetPattern none v = some r) :
    ∃ g, IsSnippetOpening v g ∧ r = some (g.dropWhile isWhiteSpace) := by
  rw [matchHere_snippetPattern_iff] at h
  obtain ⟨rest, tail, rfl, h1, hall, rfl⟩ := h
  refine ⟨tail, ⟨rest.takeWhile isWhiteSpace, [], ?_, ?_, by simp, ?_⟩, rfl⟩
  · have := List.takeWhile_append_dropWhile isWhiteSpace rest
    rw [h1] at this
    conv_lhs => rw [← this]
    simp
  · intro c hc
    exact List.mem_takeWhile_imp hc
  · intro hmem
    have := (List.all_eq_true.mp hall) _ hmem
    simp [notClosingBrace] at this

theorem snippetNameOfLinePrefix_isSome_iff (s : JsString) :
    (∃ name, snippetNameOfLinePrefix s = some name) ↔ InsideSnippetReference s := by
  constructor
  · rintro ⟨name, h⟩
    unfold snippetNameOfLinePrefix at h
    cases hm : regexMatch snippetPattern s with
    | none => simp [hm] at h
    | some r =>
      obtain ⟨u, v, huv, hv, _⟩ := regexMatch_some _ _ _ hm
      obtain ⟨g, hg, _⟩ := opening_of_matchHere_snippetPattern v r hv
      exact ⟨u, v, g, huv, hg⟩
  · rintro ⟨u, v, g, huv, hg⟩
    have hv := matchHere_snippetPattern_of_opening v g hg
    unfold snippetNameOfLinePrefix
    cases hm : regexMatch snippetPattern s with
    | none =>
      have := (regexMatch_eq_none_iff _ _).mp hm u v huv
      rw [hv] at this
      exact absurd this (by simp)
    | some r =>
      obtain ⟨u0, v0, _, hv0, _⟩ := regexMatch_some _ _ _ hm
      obtain ⟨g0, _, hr⟩ := opening_of_matchHere_snippetPattern v0 r hv0
      exact ⟨g0.dropWhile isWhiteSpace, by simp [hr]⟩

theorem snippetNameOfLinePrefix_leftmost (u v g : JsString) (hg : IsSnippetOpening v g)
    (hleft : ∀ u1 u2 g0, u = u1 ++ u2 → u2 ≠ [] → ¬ IsSnippetOpening (u2 ++ v) g0) :
    snippetNameOfLinePrefix (u ++ v) = some (g.dropWhile isWhiteSpace) := by
  have hv := matchHere_snippetPattern_of_opening v g hg
  have hm : regexMatch snippetPattern (u ++ v) = some (some (g.dropWhile isWhiteSpace)) := by
    apply regexMatch_leftmost _ _ _ _ hv
    intro u1 u2 h12 hne
    cases hm2 : matchHere snippetPattern none (u2 ++ v) with
    | none => rfl
    | some r =>
      obtain ⟨g0, hg0, _⟩ := opening_of_matchHere_snippetPattern _ r hm2
      exact absurd hg0 (hleft u1 u2 g0 h12 hne)
  simp [snippetNameOfLinePrefix, hm]

theorem getSnippetNameAtCursor_of_line (value : JsString) (row column : Nat) (line : JsString)
    (hline : (splitLines value)[row]? = some line) :
    getSnippetNameAtCursor value row column
      = .ok (snippetNameOfLinePrefix (line.take column)) := by
  simp [getSnippetNameAtCursor, hline]

/-! ## Claims on the snippet detector -/

/-- C4 (snippet detection).  On an existing line, `getSnippetNameAtCursor`
returns a name (possibly the empty string) exactly when the text before the
cursor can be written as `u ++ "{{" ++ w1 ++ "snippet:" ++ w2 ++ g` with `w1`,
`w2` white space and `g` free of `}`, and returns `null` otherwise; the answer
is the same for any two lines that agree before the cursor.  The three sample
inputs of the specification give `"fo"`, nothing and the empty string. -/
theorem getSnippetNameAtCursor_detection (value : JsString) (row column : Nat)
    (line : JsString) (hline : (splitLines value)[row]? = some line) :
    ((∃ name, getSnippetNameAtCursor value row column = .ok (some name))
        ↔ ∃ u w1 w2 g : JsString,
            line.take column = u ++ ['{', '{'] ++ w1 ++ "snippet:".toList ++ w2 ++ g
              ∧ (∀ c ∈ w1, isWhiteSpace c = true) ∧ (∀ c ∈ w2, isWhiteSpace c = true)
              ∧ '}' ∉ g)
      ∧ (getSnippetNameAtCursor value row column = .ok none
        ↔ ¬ InsideSnippetReference (line.take column))
      ∧ (∀ (value2 : JsString) (row2 : Nat) (line2 : JsString),
          (splitLines value2)[row2]? = some line2 → line2.take column = line.take column →
          getSnippetNameAtCursor value2 row2 column = getSnippetNameAtCursor value row column)
      ∧ getSnippetNameAtCursor "SELECT \x7b\x7bsnippet: fo".toList 0 20 = .ok (some "fo".toList)
      ∧ getSnippetNameAtCursor "SELECT \x7b\x7bsnippet: fo\x7d\x7d bar".toList 0 26 = .ok none
      ∧ getSnippetNameAtCursor "\x7b\x7bsnippet:".toList 0 10 = .ok (some []) := by
  rw [getSnippetNameAtCursor_of_line value row column line hline]
  have hiff := snippetNameOfLinePrefix_isSome_iff (line.take column)
  refine ⟨?_, ?_, ?_, by decide, by decide, by decide⟩
  · constructor
    · rintro ⟨name, hname⟩
      obtain ⟨u, v, g, huv, w1, w2, rfl, h1, h2, hg⟩ :=
        hiff.mp ⟨name, Except.ok.inj hname⟩
      exact ⟨u, w1, w2, g, by simp [huv, snippetLiteral], h1, h2, hg⟩
    · rintro ⟨u, w1, w2, g, hs, h1, h2, hg⟩
      obtain ⟨name, hname⟩ := hiff.mpr
        ⟨u, ['{', '{'] ++ w1 ++ snippetLiteral ++ w2 ++ g, g,
          by simp [hs, snippetLiteral], w1, w2, rfl, h1, h2, hg⟩
      exact ⟨name, by rw [hname]⟩
  · constructor
    · intro h hin
      obtain ⟨name, hname⟩ := hiff.mpr hin
      rw [hname] at h
      exact absurd (Except.ok.inj h) (by simp)
    · intro hnot
      cases hs : snippetNameOfLinePrefix (line.take column) with
      | none => rfl
      | some name => exact absurd (hiff.mp ⟨name, hs⟩) hnot
  · intro value2 row2 line2 hline2 hsame
    rw [getSnippetNameAtCursor_of_line value2 row2 column line2 hline2, hsame]

/-- Witness for C4: the first sample line, with the cursor at column 20. -/
theorem getSnippetNameAtCursor_detection_witness :
    (∃ name, getSnippetNameAtCursor "SELECT \x7b\x7bsnippet: fo".toList 0 20
        = .ok (some name))
      ∧ InsideSnippetReference ("SELECT \x7b\x7bsnippet: fo".toList.take 20) :=
  have h := getSnippetNameAtCursor_detection "SELECT \x7b\x7bsnippet: fo".toList 0 20
    "SELECT \x7b\x7bsnippet: fo".toList (by decide)
  ⟨⟨"fo".toList, h.2.2.2.1⟩,
    Classical.not_not.mp (fun hnot => by
      have := h.2.1.mpr hnot
      rw [h.2.2.2.1] at this
      exact absurd this (by decide))⟩

theorem head_of_isSnippetOpening (v g : JsString) (h : IsSnippetOpening v g) :
    v.head? = some '{' := by
  obtain ⟨w1, w2, rfl, _⟩ := h
  rfl

/-- C9, the claim as stated fails.  In `{{snippet: a {{snippet: b` with the
cursor at the end of the line both openings match up to the cursor; the
rightmost one captures `b`, yet `getSnippetNameAtCursor` returns the capture
of the leftmost one, `a {{snippet: b`. -/
theorem getSnippetNameAtCursor_not_rightmost :
    matchHere snippetPattern none "\x7b\x7bsnippet: b".toList = some (some "b".toList)
      ∧ matchHere snippetPattern none "\x7b\x7bsnippet: a \x7b\x7bsnippet: b".toList
          = some (some "a \x7b\x7bsnippet: b".toList)
      ∧ getSnippetNameAtCursor "\x7b\x7bsnippet: a \x7b\x7bsnippet: b".toList 0 25
          = .ok (some "a \x7b\x7bsnippet: b".toList)
      ∧ getSnippetNameAtCursor "\x7b\x7bsnippet: a \x7b\x7bsnippet: b".toList 0 25
          ≠ .ok (some "b".toList) := by
  refine ⟨by decide, by decide, by decide, by decide⟩

/-- C9 as amended (leftmost match).  When the text before the cursor is
`u ++ v`, `v` opens a snippet reference still open at the cursor with `g`
typed after the opening, and no earlier position of the text opens one, then
`getSnippetNameAtCursor` returns the captured group of that leftmost match:
`g` without its leading white space, later openings included. -/
theorem getSnippetNameAtCursor_leftmost (value : JsString) (row column : Nat)
    (line u v g : JsString) (hline : (splitLines value)[row]? = some line)
    (hsplit : line.take column = u ++ v) (hg : IsSnippetOpening v g)
    (hleft : ∀ u1 u2 g0, u = u1 ++ u2 → u2 ≠ [] → ¬ IsSnippetOpening (u2 ++ v) g0) :
    getSnippetNameAtCursor value row column = .ok (some (g.dropWhile isWhiteSpace)) := by
  rw [getSnippetNameAtCursor_of_line value row column line hline, hsplit,
    snippetNameOfLinePrefix_leftmost u v g hg hleft]

/-- Witness for C9 as amended: `x{{snippet: a {{snippet: b`, cursor at the end
of the line, gives `a {{snippet: b`. -/
theorem getSnippetNameAtCursor_leftmost_witness :
    getSnippetNameAtCursor "x\x7b\x7bsnippet: a \x7b\x7bsnippet: b".toList 0 26
      = .ok (some "a \x7b\x7bsnippet: b".toList) :=
  getSnippetNameAtCursor_leftmost "x\x7b\x7bsnippet: a \x7b\x7bsnippet: b".toList 0 26
    "x\x7b\x7bsnippet: a \x7b\x7bsnippet: b".toList ['x']
    "\x7b\x7bsnippet: a \x7b\x7bsnippet: b".toList " a \x7b\x7bsnippet: b".toList
    (by decide) (by decide)
    ⟨[], [], by decide, by simp, by simp, by decide⟩
    (by
      intro u1 u2 g0 h12 hne hopen
      have hhead := head_of_isSnippetOpening _ _ hopen
      cases u1 with
      | nil =>
        have hu2 : u2 = ['x'] := by simpa using h12.symm
        subst hu2
        exact absurd hhead (by decide)
      | cons a u1 =>
        have h2 : u1 ++ u2 = [] := by
          have := (List.cons.inj h12).2
          exact this.symm
        exact hne (List.append_eq_nil.mp h2).2)

/-! ## Lemmas on `getCompletions` -/

theorem cache_duration_eq : AUTOCOMPLETE_CACHE_DURATION = 840 := by decide

theorem cacheHit_iff (cache : LastAutoComplete) (now : Int) (pfx : JsString) :
    cacheHit cache now pfx = true
      ↔ cache.cachedPrefix = some pfx ∧ now - cache.timestamp < 840 := by
  simp [cacheHit, cache_duration_eq, and_comm]

theorem getCompletions_hit (toLowerCase : JsString → JsString)
    (fn : JsString → Except JsError (List RawResult))
    (ids : List Nat) (fetch : Nat → Except JsError (Option Question))
    (cache : LastAutoComplete) (now storeTime : Int) (pfx : JsString)
    (hhit : cacheHit cache now pfx = true) :
    getCompletions toLowerCase ⟨some fn, ids, fetch⟩ cache now storeTime pfx
      = { lastAutoComplete := cache, callbackError := none,
          completions := resultsForAce cache.results, providerCalls := [],
          logged := false } := by
  simp [getCompletions, hhit]

theorem getCompletions_rejected (toLowerCase : JsString → JsString)
    (fn : JsString → Except JsError (List RawResult))
    (ids : List Nat) (fetch : Nat → Except JsError (Option Question))
    (cache : LastAutoComplete) (now storeTime : Int) (pfx : JsString) (e : JsError)
    (hmiss : cacheHit cache now pfx = false) (hfn : fn pfx = .error e) :
    getCompletions toLowerCase ⟨some fn, ids, fetch⟩ cache now storeTime pfx
      = { lastAutoComplete := cache, callbackError := none, completions := [],
          providerCalls := [pfx], logged := true } := by
  simp [getCompletions, hmiss, hfn]

theorem getCompletions_merge_error (toLowerCase : JsString → JsString)
    (fn : JsString → Except JsError (List RawResult))
    (ids : List Nat) (fetch : Nat → Except JsError (Option Question))
    (cache : LastAutoComplete) (now storeTime : Int) (pfx : JsString)
    (apiResults : List RawResult) (e : JsError)
    (hmiss : cacheHit cache now pfx = false) (hfn : fn pfx = .ok apiResults)
    (hmerge : mergeWithQuestions toLowerCase ⟨some fn, ids, fetch⟩ pfx apiResults
      = .error e) :
    getCompletions toLowerCase ⟨some fn, ids, fetch⟩ cache now storeTime pfx
      = { lastAutoComplete :=
            { timestamp := storeTime, cachedPrefix := some pfx, results := cache.results },
          callbackError := none, completions := [], providerCalls := [pfx],
          logged := true } := by
  simp [getCompletions, hmiss, hfn, hmerge]

theorem getCompletions_merge_ok (toLowerCase : JsString → JsString)
    (fn : JsString → Except JsError (List RawResult))
    (ids : List Nat) (fetch : Nat → Except JsError (Option Question))
    (cache : LastAutoComplete) (now storeTime : Int) (pfx : JsString)
    (apiResults merged : List RawResult)
    (hmiss : cacheHit cache now pfx = false) (hfn : fn pfx = .ok apiResults)
    (hmerge : mergeWithQuestions toLowerCase ⟨some fn, ids, fetch⟩ pfx apiResults
      = .ok merged) :
    getCompletions toLowerCase ⟨some fn, ids, fetch⟩ cache now storeTime pfx
      = { lastAutoComplete :=
            { timestamp := storeTime, cachedPrefix := some pfx, results := cache.results },
          callbackError := none, completions := resultsForAce merged,
          providerCalls := [pfx], logged := false } := by
  simp [getCompletions, hmiss, hfn, hmerge]

theorem getCompletions_miss_providerCalls (toLowerCase : JsString → JsString)
    (fn : JsString → Except JsError (List RawResult))
    (ids : List Nat) (fetch : Nat → Except JsError (Option Question))
    (cache : LastAutoComplete) (now storeTime : Int) (pfx : JsString)
    (hmiss : cacheHit cache now pfx = false) :
    (getCompletions toLowerCase ⟨some fn, ids, fetch⟩ cache now storeTime pfx).providerCalls
      = [pfx] := by
  cases hfn : fn pfx with
  | error e => rw [getCompletions_rejected _ _ _ _ _ _ _ _ e hmiss hfn]
  | ok apiResults =>
    cases hmerge : mergeWithQuestions toLowerCase ⟨some fn, ids, fetch⟩ pfx apiResults with
    | error e => rw [getCompletions_merge_error _ _ _ _ _ _ _ _ _ e hmiss hfn hmerge]
    | ok merged => rw [getCompletions_merge_ok _ _ _ _ _ _ _ _ _ merged hmiss hfn hmerge]

theorem getCompletions_callbackError (toLowerCase : JsString → JsString) (props : Props)
    (cache : LastAutoComplete) (now storeTime : Int) (pfx : JsString) :
    (getCompletions toLowerCase props cache now storeTime pfx).callbackError = none := by
  obtain ⟨provider, ids, fetch⟩ := props
  cases provider with
  | none => rfl
  | some fn =>
    cases hhit : cacheHit cache now pfx with
    | true => rw [getCompletions_hit _ _ _ _ _ _ _ _ hhit]
    | false =>
      cases hfn : fn pfx with
      | error e => rw [getCompletions_rejected _ _ _ _ _ _ _ _ e hhit hfn]
      | ok apiResults =>
        cases hmerge : mergeWithQuestions toLowerCase ⟨some fn, ids, fetch⟩ pfx apiResults with
        | error e => rw [getCompletions_merge_error _ _ _ _ _ _ _ _ _ e hhit hfn hmerge]
        | ok merged => rw [getCompletions_merge_ok _ _ _ _ _ _ _ _ _ merged hhit hfn hmerge]

/-! ## Claims on the cache -/

/-- C1 (cache validity).  With a schema-lookup provider configured and a stored
entry with prefix `P` stamped `T0`, a request for `Q` at time `T` is answered
from the cache without a provider call exactly when `Q = P` and
`T - T0 < 840`, where `840 = AUTOCOMPLETE_CACHE_DURATION = 1.2 * 700`; in that
case the cached results are returned and the slot is left as it is, and
otherwise the provider is called once with `Q`.  The first request after the
editor is set up (slot `{timestamp 0, prefix null}`) always calls the
provider. -/
theorem getCompletions_cache_validity (toLowerCase : JsString → JsString)
    (fn : JsString → Except JsError (List RawResult))
    (ids : List Nat) (fetch : Nat → Except JsError (Option Question))
    (T0 : Int) (P : JsString) (results : List RawResult) (T storeTime : Int) (Q : JsString) :
    AUTOCOMPLETE_DEBOUNCE_DURATION = 700 ∧ AUTOCOMPLETE_CACHE_DURATION = 840
      ∧ 10 * AUTOCOMPLETE_CACHE_DURATION = 12 * AUTOCOMPLETE_DEBOUNCE_DURATION
      ∧ ((getCompletions toLowerCase ⟨some fn, ids, fetch⟩ ⟨T0, some P, results⟩
            T storeTime Q).providerCalls = []
          ↔ (Q = P ∧ T - T0 < 840))
      ∧ ((Q = P ∧ T - T0 < 840) →
          (getCompletions toLowerCase ⟨some fn, ids, fetch⟩ ⟨T0, some P, results⟩
              T storeTime Q).completions = resultsForAce results
            ∧ (getCompletions toLowerCase ⟨some fn, ids, fetch⟩ ⟨T0, some P, results⟩
              T storeTime Q).lastAutoComplete = ⟨T0, some P, results⟩)
      ∧ (¬ (Q = P ∧ T - T0 < 840) →
          (getCompletions toLowerCase ⟨some fn, ids, fetch⟩ ⟨T0, some P, results⟩
            T storeTime Q).providerCalls = [Q])
      ∧ (getCompletions toLowerCase ⟨some fn, ids, fetch⟩ initialAutoComplete
          T storeTime Q).providerCalls = [Q] := by
  have hiff : cacheHit ⟨T0, some P, results⟩ T Q = true ↔ (Q = P ∧ T - T0 < 840) := by
    rw [cacheHit_iff]
    constructor
    · rintro ⟨h1, h2⟩
      exact ⟨(Option.some.inj h1).symm, h2⟩
    · rintro ⟨h1, h2⟩
      exact ⟨by rw [h1], h2⟩
  refine ⟨rfl, by decide, by decide, ?_, ?_, ?_, ?_⟩
  · constructor
    · intro hcalls
      by_contra hnot
      have hmiss : cacheHit ⟨T0, some P, results⟩ T Q = false := by
        simpa using fun h => hnot (hiff.mp h)
      rw [getCompletions_miss_providerCalls _ _ _ _ _ _ _ _ hmiss] at hcalls
      exact absurd hcalls (by simp)
    · intro h
      rw [getCompletions_hit _ _ _ _ _ _ _ _ (hiff.mpr h)]
  · intro h
    rw [getCompletions_hit _ _ _ _ _ _ _ _ (hiff.mpr h)]
    exact ⟨rfl, rfl⟩
  · intro hnot
    have hmiss : cacheHit ⟨T0, some P, results⟩ T Q = false := by
      simpa using fun h => hnot (hiff.mp h)
    exact getCompletions_miss_providerCalls _ _ _ _ _ _ _ _ hmiss
  · apply getCompletions_miss_providerCalls
    simp [cacheHit, initialAutoComplete]

/-! ## Lemmas on the fetch and the merge -/

theorem promiseAll_ok_map {α β : Type} (f : α → β) (l : List α) :
    promiseAll (l.map (fun a => (Except.ok (f a) : Except JsError β))) = .ok (l.map f) := by
  induction l with
  | nil => rfl
  | cons a l ih => simp [promiseAll, ih]

theorem promiseAll_error_of_mem {α : Type} (l : List (Except JsError α)) (e : JsError)
    (h : Except.error e ∈ l) : ∃ e0, promiseAll l = .error e0 := by
  induction l with
  | nil => simp at h
  | cons x l ih =>
    cases x with
    | error e1 => exact ⟨e1, rfl⟩
    | ok a =>
      have hl : Except.error e ∈ l := by simpa using h
      obtain ⟨e0, h0⟩ := ih hl
      exact ⟨e0, by simp [promiseAll, h0]⟩

theorem flatMapThrowing_error_of_mem {α β : Type} (f : α → Except JsError (List β))
    (l : List α) (a : α) (e : JsError) (ha : a ∈ l) (hf : f a = .error e) :
    ∃ e0, flatMapThrowing f l = .error e0 := by
  induction l with
  | nil => simp at ha
  | cons x l ih =>
    cases hx : f x with
    | error e1 => exact ⟨e1, by simp [flatMapThrowing, hx]⟩
    | ok bs =>
      have hal : a ∈ l := by
        rcases List.mem_cons.mp ha with h | h
        · subst h; rw [hf] at hx; cases hx
        · exact h
      obtain ⟨e0, h0⟩ := ih hal
      exact ⟨e0, by simp [flatMapThrowing, hx, h0]⟩

theorem filterThrowing_ok {α : Type} (p : α → Bool) (l : List α) :
    filterThrowing (fun a => (Except.ok (p a) : Except JsError Bool)) l
      = .ok (l.filter p) := by
  induction l with
  | nil => rfl
  | cons a l ih =>
    cases hp : p a <;> simp [filterThrowing, ih, hp]

theorem questionColumns_error_of_missing_metadata (toLowerCase : JsString → JsString)
    (pfx : JsString) (referencedQuestions : List (Option Question)) (question : Question)
    (hmem : some question ∈ referencedQuestions)
    (hmissing : question.result_metadata = none) :
    ∃ e, questionColumns toLowerCase pfx referencedQuestions = .error e := by
  apply flatMapThrowing_error_of_mem _ _ question .typeError
  · simpa using hmem
  · simp [columnsOfQuestion, hmissing]

theorem resultsForAce_append (xs ys : List RawResult) :
    resultsForAce (xs ++ ys) = resultsForAce xs ++ resultsForAce ys := by
  simp [resultsForAce]

/-! ## Claims on the merge and on failures -/

/-- C2 (cache store), evaluated at a failing input.  From the initial slot, a
request for `or` at time 1000 misses and returns four candidates, but the slot
it leaves holds prefix `or` with the old, empty results; the same request at
time 1100, inside the validity window, is answered from the slot without a
provider call and returns no candidate at all. -/
theorem getCompletions_store_keeps_old_results :
    (getCompletions asciiToLowerCase ⟨some sampleProvider, [1], sampleFetchQuestion⟩
        initialAutoComplete 1000 1001 "or".toList).completions
      = [⟨"ORDER_ID".toList, "ORDER_ID".toList, some "Orders :type/Integer".toList⟩,
         ⟨"vendor".toList, "vendor".toList, some "Orders :type/Text".toList⟩,
         ⟨"orders".toList, "orders".toList, some "TABLE".toList⟩,
         ⟨"organizations".toList, "organizations".toList, some "TABLE".toList⟩]
    ∧ (getCompletions asciiToLowerCase ⟨some sampleProvider, [1], sampleFetchQuestion⟩
        initialAutoComplete 1000 1001 "or".toList).lastAutoComplete
      = ⟨1001, some "or".toList, []⟩
    ∧ (getCompletions asciiToLowerCase ⟨some sampleProvider, [1], sampleFetchQuestion⟩
        ⟨1001, some "or".toList, []⟩ 1100 1101 "or".toList).providerCalls = []
    ∧ (getCompletions asciiToLowerCase ⟨some sampleProvider, [1], sampleFetchQuestion⟩
        ⟨1001, some "or".toList, []⟩ 1100 1101 "or".toList).completions = [] := by
  refine ⟨by decide, by decide, by decide, by decide⟩

/-- C3 (merge order).  On a cache miss on which the provider yields `R`, every
question fetch succeeds and the matching referenced-question columns are `C`,
the sequence handed to the callback is `C ++ R` turned into candidates one by
one (`name = value =` first component, `meta =` second): nothing is dropped,
reordered or deduplicated. -/
theorem getCompletions_merge_order (toLowerCase : JsString → JsString)
    (fn : JsString → Except JsError (List RawResult))
    (ids : List Nat) (fetch : Nat → Except JsError (Option Question))
    (cache : LastAutoComplete) (now storeTime : Int) (pfx : JsString)
    (referencedQuestions : List (Option Question)) (C R : List RawResult)
    (hmiss : cacheHit cache now pfx = false) (hfn : fn pfx = .ok R)
    (hfetch : promiseAll (ids.map fetch) = .ok referencedQuestions)
    (hcolumns : questionColumns toLowerCase pfx referencedQuestions = .ok C) :
    (getCompletions toLowerCase ⟨some fn, ids, fetch⟩ cache now storeTime pfx).completions
        = (C ++ R).map (fun pair => { name := pair.1, value := pair.1, meta := some pair.2 })
      ∧ (getCompletions toLowerCase ⟨some fn, ids, fetch⟩ cache now storeTime pfx).completions
        = resultsForAce C ++ resultsForAce R
      ∧ (getCompletions toLowerCase ⟨some fn, ids, fetch⟩ cache now storeTime pfx).callbackError
        = none := by
  have hmerge : mergeWithQuestions toLowerCase ⟨some fn, ids, fetch⟩ pfx R = .ok (C ++ R) := by
    simp [mergeWithQuestions, hfetch, hcolumns]
  rw [getCompletions_merge_ok _ _ _ _ _ _ _ _ _ _ hmiss hfn hmerge]
  exact ⟨rfl, resultsForAce_append C R, rfl⟩

/-- Witness for C3: two matching columns `[c1, c2]` of question 1 and two
provider results `[r1, r2]` give `[c1, c2, r1, r2]`. -/
theorem getCompletions_merge_order_witness :
    (getCompletions asciiToLowerCase ⟨some sampleProvider, [1], sampleFetchQuestion⟩
        initialAutoComplete 1000 1001 "or".toList).completions
      = [⟨"ORDER_ID".toList, "ORDER_ID".toList, some "Orders :type/Integer".toList⟩,
         ⟨"vendor".toList, "vendor".toList, some "Orders :type/Text".toList⟩,
         ⟨"orders".toList, "orders".toList, some "TABLE".toList⟩,
         ⟨"organizations".toList, "organizations".toList, some "TABLE".toList⟩] :=
  (getCompletions_merge_order asciiToLowerCase sampleProvider [1] sampleFetchQuestion
    initialAutoComplete 1000 1001 "or".toList [some ordersQuestion]
    [("ORDER_ID".toList, "Orders :type/Integer".toList),
     ("vendor".toList, "Orders :type/Text".toList)]
    [("orders".toList, "TABLE".toList), ("organizations".toList, "TABLE".toList)]
    (by decide) (by decide) (by decide) (by decide)).1

/-- C6 (silent failure).  For every slot and every prefix: `callback` always
receives a `null` error; without a configured provider the result is empty, no
provider is called, and the slot is handed back as it was, whatever it holds
and whether or not it would have served the request.  On a cache miss the
result is empty whenever the provider rejects, whenever the rest of the fetch
raises, and in particular whenever a question fetch rejects or a fetched
question lacks its result metadata. -/
theorem getCompletions_silent_failure (toLowerCase : JsString → JsString)
    (fn : JsString → Except JsError (List RawResult))
    (ids : List Nat) (fetch : Nat → Except JsError (Option Question))
    (cache : LastAutoComplete) (now storeTime : Int) (pfx : JsString) :
    (∀ props : Props,
        (getCompletions toLowerCase props cache now storeTime pfx).callbackError = none)
      ∧ getCompletions toLowerCase ⟨none, ids, fetch⟩ cache now storeTime pfx
          = { lastAutoComplete := cache, callbackError := none, completions := [],
              providerCalls := [], logged := false }
      ∧ (∀ (cache2 : LastAutoComplete) (now2 storeTime2 : Int),
          (getCompletions toLowerCase ⟨none, ids, fetch⟩ cache2 now2 storeTime2
              pfx).completions = []
            ∧ (getCompletions toLowerCase ⟨none, ids, fetch⟩ cache2 now2 storeTime2
              pfx).lastAutoComplete = cache2)
      ∧ (cacheHit cache now pfx = false → ∀ e, fn pfx = .error e →
          (getCompletions toLowerCase ⟨some fn, ids, fetch⟩ cache now storeTime pfx).completions
            = [])
      ∧ (cacheHit cache now pfx = false → ∀ R e, fn pfx = .ok R →
          mergeWithQuestions toLowerCase ⟨some fn, ids, fetch⟩ pfx R = .error e →
          (getCompletions toLowerCase ⟨some fn, ids, fetch⟩ cache now storeTime pfx).completions
            = [])
      ∧ (cacheHit cache now pfx = false → ∀ R id e, fn pfx = .ok R → id ∈ ids →
          fetch id = .error e →
          (getCompletions toLowerCase ⟨some fn, ids, fetch⟩ cache now storeTime pfx).completions
            = [])
      ∧ (cacheHit cache now pfx = false → ∀ R referencedQuestions question, fn pfx = .ok R →
          promiseAll (ids.map fetch) = .ok referencedQuestions →
          some question ∈ referencedQuestions → question.result_metadata = none →
          (getCompletions toLowerCase ⟨some fn, ids, fetch⟩ cache now storeTime pfx).completions
            = []) := by
  refine ⟨fun props => getCompletions_callbackError _ props _ _ _ _, rfl,
    fun _ _ _ => ⟨rfl, rfl⟩, ?_, ?_, ?_, ?_⟩
  · intro hmiss e hfn
    rw [getCompletions_rejected _ _ _ _ _ _ _ _ e hmiss hfn]
  · intro hmiss R e hfn hmerge
    rw [getCompletions_merge_error _ _ _ _ _ _ _ _ _ e hmiss hfn hmerge]
  · intro hmiss R id e hfn hid hfetch
    obtain ⟨e0, h0⟩ := promiseAll_error_of_mem (ids.map fetch) e
      (List.mem_map.mpr ⟨id, hid, hfetch⟩)
    have hmerge : mergeWithQuestions toLowerCase ⟨some fn, ids, fetch⟩ pfx R = .error e0 := by
      simp [mergeWithQuestions, h0]
    rw [getCompletions_merge_error _ _ _ _ _ _ _ _ _ e0 hmiss hfn hmerge]
  · intro hmiss R referencedQuestions question hfn hfetch hmem hmissing
    obtain ⟨e0, h0⟩ := questionColumns_error_of_missing_metadata toLowerCase pfx
      referencedQuestions question hmem hmissing
    have hmerge : mergeWithQuestions toLowerCase ⟨some fn, ids, fetch⟩ pfx R = .error e0 := by
      simp [mergeWithQuestions, hfetch, h0]
    rw [getCompletions_merge_error _ _ _ _ _ _ _ _ _ e0 hmiss hfn hmerge]

/-- Witness for C6.  A slot stamped 1000 for `or` holding one result would
serve a request for `or` at time 1100; without a configured provider the
result is empty all the same and the slot is handed back untouched.  From the
initial slot, a rejecting provider gives an empty result and a `null` error. -/
theorem getCompletions_silent_failure_witness :
    cacheHit ⟨1000, some "or".toList, [("orders".toList, "TABLE".toList)]⟩ 1100 "or".toList
        = true
      ∧ (getCompletions asciiToLowerCase ⟨none, [1], sampleFetchQuestion⟩
          ⟨1000, some "or".toList, [("orders".toList, "TABLE".toList)]⟩ 1100 1101
          "or".toList).completions = []
      ∧ (getCompletions asciiToLowerCase ⟨none, [1], sampleFetchQuestion⟩
          ⟨1000, some "or".toList, [("orders".toList, "TABLE".toList)]⟩ 1100 1101
          "or".toList).lastAutoComplete
          = ⟨1000, some "or".toList, [("orders".toList, "TABLE".toList)]⟩
      ∧ (getCompletions asciiToLowerCase ⟨some rejectingProvider, [1], sampleFetchQuestion⟩
          initialAutoComplete 1000 1001 "or".toList).completions = []
      ∧ (getCompletions asciiToLowerCase ⟨some rejectingProvider, [1], sampleFetchQuestion⟩
          initialAutoComplete 1000 1001 "or".toList).callbackError = none :=
  have h := getCompletions_silent_failure asciiToLowerCase rejectingProvider [1]
    sampleFetchQuestion initialAutoComplete 1000 1001 "or".toList
  have hslot := h.2.2.1 ⟨1000, some "or".toList, [("orders".toList, "TABLE".toList)]⟩
    1100 1101
  ⟨by decide, hslot.1, hslot.2,
    h.2.2.2.1 (by decide) (.rejected "network".toList) rfl, h.1 _⟩

/-- C7, the claim as stated fails.  Question 1 has two columns matching `or`,
so the referenced-question columns are not empty; with a rejecting provider
the result handed to the callback is nevertheless empty and contains neither
column. -/
theorem getCompletions_rejection_drops_question_columns :
    questionColumns asciiToLowerCase "or".toList [some ordersQuestion]
        = .ok [("ORDER_ID".toList, "Orders :type/Integer".toList),
               ("vendor".toList, "Orders :type/Text".toList)]
      ∧ cacheHit initialAutoComplete 1000 "or".toList = false
      ∧ (getCompletions asciiToLowerCase ⟨some rejectingProvider, [1], sampleFetchQuestion⟩
          initialAutoComplete 1000 1001 "or".toList).completions = []
      ∧ (⟨"ORDER_ID".toList, "ORDER_ID".toList, some "Orders :type/Integer".toList⟩
            : AceCompletion)
          ∉ (getCompletions asciiToLowerCase
              ⟨some rejectingProvider, [1], sampleFetchQuestion⟩
              initialAutoComplete 1000 1001 "or".toList).completions := by
  refine ⟨by decide, by decide, by decide, by decide⟩

/-- C7 as amended.  When the provider rejects on a cache miss the operation
does not throw: the callback receives a `null` error and the empty sequence,
with no referenced-question column in it (the questions are not consulted),
the provider has been called once and the slot is unchanged. -/
theorem getCompletions_rejection_yields_empty (toLowerCase : JsString → JsString)
    (fn : JsString → Except JsError (List RawResult))
    (ids : List Nat) (fetch : Nat → Except JsError (Option Question))
    (cache : LastAutoComplete) (now storeTime : Int) (pfx : JsString) (e : JsError)
    (hmiss : cacheHit cache now pfx = false) (hfn : fn pfx = .error e) :
    getCompletions toLowerCase ⟨some fn, ids, fetch⟩ cache now storeTime pfx
      = { lastAutoComplete := cache, callbackError := none, completions := [],
          providerCalls := [pfx], logged := true }
      ∧ ∀ fetch2 : Nat → Except JsError (Option Question),
          getCompletions toLowerCase ⟨some fn, ids, fetch2⟩ cache now storeTime pfx
            = getCompletions toLowerCase ⟨some fn, ids, fetch⟩ cache now storeTime pfx := by
  refine ⟨getCompletions_rejected _ _ _ _ _ _ _ _ e hmiss hfn, fun fetch2 => ?_⟩
  rw [getCompletions_rejected _ _ _ _ _ _ _ _ e hmiss hfn,
    getCompletions_rejected _ _ _ _ _ _ _ _ e hmiss hfn]

/-- Witness for C7 as amended: the rejecting provider on the initial slot. -/
theorem getCompletions_rejection_yields_empty_witness :
    getCompletions asciiToLowerCase ⟨some rejectingProvider, [1], sampleFetchQuestion⟩
        initialAutoComplete 1000 1001 "or".toList
      = { lastAutoComplete := initialAutoComplete, callbackError := none, completions := [],
          providerCalls := ["or".toList], logged := true } :=
  (getCompletions_rejection_yields_empty asciiToLowerCase rejectingProvider [1]
    sampleFetchQuestion initialAutoComplete 1000 1001 "or".toList
    (.rejected "network".toList) (by decide) rfl).1

/-- C10, the claim as stated fails.  With questions 1 (two matching columns)
and 2 (fetched, but without result metadata) referenced and a provider that
answers, the result is empty: it is not the columns of question 1 followed by
the provider results, which is what the same request yields when question 2 is
not referenced. -/
theorem getCompletions_missing_metadata_drops_all :
    (getCompletions asciiToLowerCase ⟨some sampleProvider, [1], sampleFetchQuestion⟩
        initialAutoComplete 1000 1001 "or".toList).completions
      = [⟨"ORDER_ID".toList, "ORDER_ID".toList, some "Orders :type/Integer".toList⟩,
         ⟨"vendor".toList, "vendor".toList, some "Orders :type/Text".toList⟩,
         ⟨"orders".toList, "orders".toList, some "TABLE".toList⟩,
         ⟨"organizations".toList, "organizations".toList, some "TABLE".toList⟩]
    ∧ sampleFetchQuestion 2 = .ok (some unrunQuestion)
    ∧ unrunQuestion.result_metadata = none
    ∧ (getCompletions asciiToLowerCase ⟨some sampleProvider, [1, 2], sampleFetchQuestion⟩
        initialAutoComplete 1000 1001 "or".toList).completions = []
    ∧ (getCompletions asciiToLowerCase ⟨some sampleProvider, [1, 2], sampleFetchQuestion⟩
        initialAutoComplete 1000 1001 "or".toList).completions
      ≠ (getCompletions asciiToLowerCase ⟨some sampleProvider, [1], sampleFetchQuestion⟩
        initialAutoComplete 1000 1001 "or".toList).completions := by
  refine ⟨by decide, rfl, rfl, by decide, by decide⟩

/-- C10 as amended.  On a cache miss on which the provider answers and every
question fetch succeeds, if some fetched question has no result metadata then
reading it raises inside the `try` block: the callback receives a `null` error
and the empty sequence, so that no column of any question and no provider
result is offered. -/
theorem getCompletions_missing_metadata_yields_empty (toLowerCase : JsString → JsString)
    (fn : JsString → Except JsError (List RawResult))
    (ids : List Nat) (fetch : Nat → Except JsError (Option Question))
    (cache : LastAutoComplete) (now storeTime : Int) (pfx : JsString)
    (R : List RawResult) (referencedQuestions : List (Option Question)) (question : Question)
    (hmiss : cacheHit cache now pfx = false) (hfn : fn pfx = .ok R)
    (hfetch : promiseAll (ids.map fetch) = .ok referencedQuestions)
    (hmem : some question ∈ referencedQuestions)
    (hmissing : question.result_metadata = none) :
    (getCompletions toLowerCase ⟨some fn, ids, fetch⟩ cache now storeTime pfx).completions = []
      ∧ (getCompletions toLowerCase ⟨some fn, ids, fetch⟩ cache now storeTime pfx).callbackError
          = none := by
  obtain ⟨e0, h0⟩ := questionColumns_error_of_missing_metadata toLowerCase pfx
    referencedQuestions question hmem hmissing
  have hmerge : mergeWithQuestions toLowerCase ⟨some fn, ids, fetch⟩ pfx R = .error e0 := by
    simp [mergeWithQuestions, hfetch, h0]
  rw [getCompletions_merge_error _ _ _ _ _ _ _ _ _ e0 hmiss hfn hmerge]
  exact ⟨rfl, rfl⟩

/-- Witness for C10 as amended: questions 1 and 2 referenced, question 2
without result metadata. -/
theorem getCompletions_missing_metadata_yields_empty_witness :
    (getCompletions asciiToLowerCase ⟨some sampleProvider, [1, 2], sampleFetchQuestion⟩
        initialAutoComplete 1000 1001 "or".toList).completions = []
      ∧ (getCompletions asciiToLowerCase ⟨some sampleProvider, [1, 2], sampleFetchQuestion⟩
        initialAutoComplete 1000 1001 "or".toList).callbackError = none :=
  getCompletions_missing_metadata_yields_empty asciiToLowerCase sampleProvider [1, 2]
    sampleFetchQuestion initialAutoComplete 1000 1001 "or".toList
    [("orders".toList, "TABLE".toList), ("organizations".toList, "TABLE".toList)]
    [some ordersQuestion, some unrunQuestion] unrunQuestion
    (by decide) rfl (by decide) (by decide) rfl

/-! ## Referenced-question columns -/

theorem questionColumns_storeOf (toLowerCase : JsString → JsString) (p : JsString)
    (fetched : Nat → Option (JsString × List ColumnMetadata)) (ids : List Nat) :
    questionColumns toLowerCase p (ids.map (fun id => (fetched id).map questionOf))
      = .ok (referencedColumnsSpec toLowerCase p fetched ids) := by
  unfold questionColumns referencedColumnsSpec
  induction ids with
  | nil => rfl
  | cons id ids ih =>
    cases hf : fetched id with
    | none =>
      simp only [List.map_cons, hf, Option.map_none', List.filterMap_cons, id_eq,
        List.flatMap_cons, contributionOfId, List.nil_append]
      exact ih
    | some q =>
      obtain ⟨questionName, columns⟩ := q
      simp only [List.map_cons, hf, Option.map_some', List.filterMap_cons, id_eq,
        List.flatMap_cons, contributionOfId, flatMapThrowing]
      rw [ih]
      simp only [columnsOfQuestion, questionOf, isMatchForPrefix]
      congr 2
      congr 1
      · apply List.filter_congr
        intro column _
        rw [Bool.eq_iff_iff, includes_iff]
        simp

theorem mergeWithQuestions_storeOf (toLowerCase : JsString → JsString) (p : JsString)
    (fn : Option (JsString → Except JsError (List RawResult)))
    (fetched : Nat → Option (JsString × List ColumnMetadata)) (ids : List Nat)
    (R : List RawResult) :
    mergeWithQuestions toLowerCase ⟨fn, ids, storeOf fetched⟩ p R
      = .ok (referencedColumnsSpec toLowerCase p fetched ids ++ R) := by
  have h1 : promiseAll (ids.map (storeOf fetched))
      = .ok (ids.map (fun id => (fetched id).map questionOf)) :=
    promiseAll_ok_map (fun id => (fetched id).map questionOf) ids
  simp only [mergeWithQuestions, h1, questionColumns_storeOf]

theorem claimedReferencedColumns_storeOf (toLowerCase : JsString → JsString) (p : JsString)
    (fetched : Nat → Option (JsString × List ColumnMetadata)) (ids : List Nat) :
    claimedReferencedColumns toLowerCase p (ids.map (fun id => (fetched id).map questionOf))
      = referencedColumnsSpec toLowerCase p fetched ids := by
  unfold claimedReferencedColumns referencedColumnsSpec
  induction ids with
  | nil => rfl
  | cons id ids ih =>
    cases hf : fetched id with
    | none =>
      simp only [List.map_cons, hf, Option.map_none', List.filterMap_cons, id_eq,
        List.flatMap_cons, contributionOfId, List.nil_append]
      exact ih
    | some q =>
      obtain ⟨questionName, columns⟩ := q
      simp only [List.map_cons, hf, Option.map_some', List.filterMap_cons, id_eq,
        List.flatMap_cons, contributionOfId]
      rw [ih]
      rfl

/-- C8, the claim as stated fails.  On a cache miss with ids `[1, 2]` both
fetches yield a question and the provider answers.  The claimed
referenced-question part is the two matching columns of question 1 (question 2
has no result metadata, hence no column), yet the result is empty: the claimed
part does not open the result, and none of its candidates is in it. -/
theorem getCompletions_referenced_columns_need_metadata :
    cacheHit initialAutoComplete 1000 "or".toList = false
      ∧ promiseAll ([1, 2].map sampleFetchQuestion)
          = .ok [some ordersQuestion, some unrunQuestion]
      ∧ claimedReferencedColumns asciiToLowerCase "or".toList
            [some ordersQuestion, some unrunQuestion]
          = [("ORDER_ID".toList, "Orders :type/Integer".toList),
             ("vendor".toList, "Orders :type/Text".toList)]
      ∧ (getCompletions asciiToLowerCase ⟨some sampleProvider, [1, 2], sampleFetchQuestion⟩
          initialAutoComplete 1000 1001 "or".toList).completions = []
      ∧ ¬ (resultsForAce (claimedReferencedColumns asciiToLowerCase "or".toList
              [some ordersQuestion, some unrunQuestion])
            <+: (getCompletions asciiToLowerCase
              ⟨some sampleProvider, [1, 2], sampleFetchQuestion⟩
              initialAutoComplete 1000 1001 "or".toList).completions) := by
  refine ⟨by decide, by decide, by decide, by decide, ?_⟩
  have hempty : (getCompletions asciiToLowerCase
      ⟨some sampleProvider, [1, 2], sampleFetchQuestion⟩
      initialAutoComplete 1000 1001 "or".toList).completions = [] := by decide
  have hclaimed : resultsForAce (claimedReferencedColumns asciiToLowerCase "or".toList
      [some ordersQuestion, some unrunQuestion])
      = [⟨"ORDER_ID".toList, "ORDER_ID".toList, some "Orders :type/Integer".toList⟩,
         ⟨"vendor".toList, "vendor".toList, some "Orders :type/Text".toList⟩] := by decide
  rw [hempty, hclaimed]
  intro h
  have := List.IsPrefix.length_le h
  simp at this

/-- C8 as amended (referenced-question columns).  On a cache miss on which the
provider answers with `R` and every question fetch yields either a question
that carries its result columns or nothing, the result is the
referenced-question part followed by `R`, where the referenced-question part is
the concatenation, in id order and then column order, over the fetched
questions only, of the columns whose name contains the prefix
case-insensitively, each as `(column name, "<question name> :<base type>")`.
An id whose fetch yields nothing contributes nothing and leaves the result as
it is without that id. -/
theorem getCompletions_referenced_columns (toLowerCase : JsString → JsString)
    (fn : JsString → Except JsError (List RawResult))
    (fetched : Nat → Option (JsString × List ColumnMetadata)) (ids : List Nat)
    (cache : LastAutoComplete) (now storeTime : Int) (p : JsString) (R : List RawResult)
    (hmiss : cacheHit cache now p = false) (hfn : fn p = .ok R) :
    questionColumns toLowerCase p (ids.map (fun id => (fetched id).map questionOf))
        = .ok (referencedColumnsSpec toLowerCase p fetched ids)
      ∧ (getCompletions toLowerCase ⟨some fn, ids, storeOf fetched⟩ cache now storeTime
            p).completions
          = resultsForAce (referencedColumnsSpec toLowerCase p fetched ids)
              ++ resultsForAce R
      ∧ (∀ pair, pair ∈ referencedColumnsSpec toLowerCase p fetched ids ↔
          ∃ id ∈ ids, ∃ questionName columns, fetched id = some (questionName, columns)
            ∧ ∃ column ∈ columns, toLowerCase p <:+: toLowerCase column.name
              ∧ pair = (column.name, questionName ++ " :".toList ++ column.base_type))
      ∧ (∀ ids1 ids2 id, ids = ids1 ++ id :: ids2 → fetched id = none →
          contributionOfId toLowerCase p fetched id = []
            ∧ (getCompletions toLowerCase ⟨some fn, ids, storeOf fetched⟩ cache now storeTime
                p).completions
              = (getCompletions toLowerCase ⟨some fn, ids1 ++ ids2, storeOf fetched⟩ cache now
                storeTime p).completions) := by
  have hcompl : ∀ ids0 : List Nat,
      (getCompletions toLowerCase ⟨some fn, ids0, storeOf fetched⟩ cache now storeTime
            p).completions
          = resultsForAce (referencedColumnsSpec toLowerCase p fetched ids0)
              ++ resultsForAce R := by
    intro ids0
    rw [getCompletions_merge_ok _ _ _ _ _ _ _ _ _ _ hmiss hfn
      (mergeWithQuestions_storeOf toLowerCase p (some fn) fetched ids0 R)]
    exact resultsForAce_append _ _
  refine ⟨questionColumns_storeOf toLowerCase p fetched ids, hcompl ids, ?_, ?_⟩
  · intro pair
    simp only [referencedColumnsSpec, List.mem_flatMap]
    constructor
    · rintro ⟨id, hid, hpair⟩
      unfold contributionOfId at hpair
      cases hf : fetched id with
      | none => simp [hf] at hpair
      | some q =>
        obtain ⟨questionName, columns⟩ := q
        simp only [hf, List.mem_map, List.mem_filter, decide_eq_true_eq] at hpair
        obtain ⟨column, ⟨hmem, hsub⟩, rfl⟩ := hpair
        exact ⟨id, hid, questionName, columns, hf, column, hmem, hsub, rfl⟩
    · rintro ⟨id, hid, questionName, columns, hf, column, hmem, hsub, rfl⟩
      refine ⟨id, hid, ?_⟩
      unfold contributionOfId
      simp only [hf, List.mem_map, List.mem_filter, decide_eq_true_eq]
      exact ⟨column, ⟨hmem, hsub⟩, rfl⟩
  · intro ids1 ids2 id hids hnone
    have hcontrib : contributionOfId toLowerCase p fetched id = [] := by
      simp [contributionOfId, hnone]
    refine ⟨hcontrib, ?_⟩
    rw [hcompl ids, hcompl (ids1 ++ ids2), hids]
    simp [referencedColumnsSpec, hcontrib]

/-- Witness for C8 as amended: ids `[3, 1]`, of which only question 1 is fetched; its
columns `ORDER_ID` and `vendor` contain `or`, `total` does not. -/
theorem getCompletions_referenced_columns_witness :
    (getCompletions asciiToLowerCase ⟨some sampleProvider, [3, 1], storeOf sampleFetched⟩
        initialAutoComplete 1000 1001 "or".toList).completions
      = resultsForAce [("ORDER_ID".toList, "Orders :type/Integer".toList),
          ("vendor".toList, "Orders :type/Text".toList)]
        ++ resultsForAce [("orders".toList, "TABLE".toList),
          ("organizations".toList, "TABLE".toList)] :=
  (getCompletions_referenced_columns asciiToLowerCase sampleProvider sampleFetched [3, 1]
    initialAutoComplete 1000 1001 "or".toList
    [("orders".toList, "TABLE".toList), ("organizations".toList, "TABLE".toList)]
    (by decide) rfl).2.1.trans (by decide)

/-! ## Claims on the snippet completer -/

/-- C5 (snippet filter).  When the detector finds the name `f` at the cursor,
`getSnippetCompletions` hands the callback exactly the snippets, in their
original order, whose lowered name contains the lowered `f` as a contiguous
run, each as a candidate with `name = value =` the snippet name and no `meta`;
an absent list, an empty list, or a list without a match gives the empty
sequence. -/
theorem getSnippetCompletions_filter (toLowerCase : JsString → JsString)
    (value : JsString) (row column : Nat) (f : JsString) (snippets : Option (List Snippet))
    (hname : getSnippetNameAtCursor value row column = .ok (some f)) :
    getSnippetCompletions toLowerCase value row column snippets
        = .ok (((snippets.getD []).filter
              (fun snippet => decide (toLowerCase f <:+: toLowerCase snippet.name))).map
            (fun snippet => { name := snippet.name, value := snippet.name, meta := none }))
      ∧ getSnippetCompletions toLowerCase value row column none = .ok []
      ∧ getSnippetCompletions toLowerCase value row column (some []) = .ok []
      ∧ ((∀ snippet ∈ snippets.getD [], ¬ toLowerCase f <:+: toLowerCase snippet.name) →
          getSnippetCompletions toLowerCase value row column snippets = .ok []) := by
  have hmain : ∀ list : Option (List Snippet),
      getSnippetCompletions toLowerCase value row column list
        = .ok (((list.getD []).filter
              (fun snippet => decide (toLowerCase f <:+: toLowerCase snippet.name))).map
            (fun snippet => { name := snippet.name, value := snippet.name, meta := none })) := by
    intro list
    have hcb : snippetMatches toLowerCase (some f)
        = fun snippet => (Except.ok (decide (toLowerCase f <:+: toLowerCase snippet.name))
            : Except JsError Bool) := by
      funext snippet
      simp only [snippetMatches]
      congr 1
      rw [Bool.eq_iff_iff, includes_iff]
      simp
    simp only [getSnippetCompletions, hname, hcb, filterThrowing_ok]
    rfl
  refine ⟨hmain snippets, by rw [hmain]; rfl, by rw [hmain]; rfl, ?_⟩
  intro hnone
  rw [hmain]
  have : (snippets.getD []).filter
      (fun snippet => decide (toLowerCase f <:+: toLowerCase snippet.name)) = [] := by
    rw [List.filter_eq_nil_iff]
    intro snippet hmem
    simpa using hnone snippet hmem
  rw [this]
  rfl

/-- Witness for C5: with `sum` typed after `{{snippet: `, both
`Orders Summary` and `summary2` are offered, in that order, and `Totals` is
not. -/
theorem getSnippetCompletions_filter_witness :
    getSnippetCompletions asciiToLowerCase "\x7b\x7bsnippet: sum".toList 0 14
        (some [⟨"Orders Summary".toList, [], []⟩, ⟨"Totals".toList, [], []⟩,
          ⟨"summary2".toList, [], []⟩])
      = .ok [⟨"Orders Summary".toList, "Orders Summary".toList, none⟩,
          ⟨"summary2".toList, "summary2".toList, none⟩] :=
  (getSnippetCompletions_filter asciiToLowerCase "\x7b\x7bsnippet: sum".toList 0 14
    "sum".toList
    (some [⟨"Orders Summary".toList, [], []⟩, ⟨"Totals".toList, [], []⟩,
      ⟨"summary2".toList, [], []⟩])
    (by decide)).1.trans (by decide)

/-! ## Claims on the wiring of the snippet completer -/

theorem getSnippetNameAtCursor_ok_of_row (value : JsString) (row column : Nat)
    (hrow : row < (splitLines value).length) :
    getSnippetNameAtCursor value row column
      = .ok (snippetNameOfLinePrefix (((splitLines value).get ⟨row, hrow⟩).take column)) := by
  apply getSnippetNameAtCursor_of_line
  simp [List.getElem?_eq_getElem hrow]

theorem filterThrowing_nil_snippets (toLowerCase : JsString → JsString)
    (name : Option JsString) :
    filterThrowing (snippetMatches toLowerCase name) [] = .ok [] := rfl

theorem getSnippetCompletions_ok_of_name (toLowerCase : JsString → JsString)
    (value : JsString) (row column : Nat) (f : JsString) (snippets : Option (List Snippet))
    (hname : getSnippetNameAtCursor value row column = .ok (some f)) :
    ∃ candidates,
      getSnippetCompletions toLowerCase value row column snippets = .ok candidates := by
  have hcb : snippetMatches toLowerCase (some f)
      = fun snippet => (Except.ok (includes (toLowerCase snippet.name) (toLowerCase f))
          : Except JsError Bool) := by
    funext snippet
    rfl
  refine ⟨((snippets.getD []).filter
      (fun snippet => includes (toLowerCase snippet.name) (toLowerCase f))).map
      snippetCompletion, ?_⟩
  simp only [getSnippetCompletions, hname, hcb, filterThrowing_ok]

/-- C11, the claim as stated fails.  In `SELECT 1` with the cursor at the end
of the line the detector finds no match, which is its normal outcome `null`,
and the general completers are installed; `getSnippetCompletions` called there
with one snippet in the list raises a `TypeError` instead of delivering a
candidate sequence. -/
theorem getSnippetCompletions_raises_outside_reference :
    getSnippetNameAtCursor "SELECT 1".toList 0 8 = .ok none
      ∧ swapInCorrectCompletors "SELECT 1".toList 0 8 = .ok .allCompleters
      ∧ getSnippetCompletions asciiToLowerCase "SELECT 1".toList 0 8
          (some [⟨"Orders Summary".toList, [], []⟩]) = .error .typeError
      ∧ ¬ ∃ candidates, getSnippetCompletions asciiToLowerCase "SELECT 1".toList 0 8
          (some [⟨"Orders Summary".toList, [], []⟩]) = .ok candidates := by
  refine ⟨by decide, by decide, by decide, ?_⟩
  rintro ⟨candidates, h⟩
  have herr : getSnippetCompletions asciiToLowerCase "SELECT 1".toList 0 8
      (some [⟨"Orders Summary".toList, [], []⟩]) = .error .typeError := by decide
  rw [herr] at h
  cases h

/-- C11 as amended.  For every editor text and every cursor position on an
existing line of it the detector does not fail, the absence of a match being
its normal outcome `null`, and `swapInCorrectCompletors` installs a completer
list.  At every position where it installs the snippet completer, and for any
position when the snippet list is empty or absent, `getSnippetCompletions`
delivers a candidate sequence through the callback without failing. -/
theorem getSnippetCompletions_delivers_when_installed (toLowerCase : JsString → JsString)
    (value : JsString) (row column : Nat) (hrow : row < (splitLines value).length) :
    (∃ name, getSnippetNameAtCursor value row column = .ok name)
      ∧ (∃ completers, swapInCorrectCompletors value row column = .ok completers)
      ∧ (swapInCorrectCompletors value row column = .ok .allCompleters
          ↔ getSnippetNameAtCursor value row column = .ok none)
      ∧ (swapInCorrectCompletors value row column = .ok .snippetCompleter →
          ∀ snippets : Option (List Snippet), ∃ candidates,
            getSnippetCompletions toLowerCase value row column snippets = .ok candidates)
      ∧ getSnippetCompletions toLowerCase value row column none = .ok []
      ∧ getSnippetCompletions toLowerCase value row column (some []) = .ok [] := by
  have hname := getSnippetNameAtCursor_ok_of_row value row column hrow
  generalize snippetNameOfLinePrefix (((splitLines value).get ⟨row, hrow⟩).take column)
    = name at hname
  refine ⟨⟨name, hname⟩, ?_, ?_, ?_, ?_, ?_⟩
  · exact ⟨if (name != none) = true then .snippetCompleter else .allCompleters,
      by simp only [swapInCorrectCompletors, hname]⟩
  · cases name with
    | none => simp [swapInCorrectCompletors, hname]
    | some f => simp [swapInCorrectCompletors, hname]
  · intro hswap snippets
    cases name with
    | none => simp [swapInCorrectCompletors, hname] at hswap
    | some f =>
      exact getSnippetCompletions_ok_of_name toLowerCase value row column f snippets hname
  · simp only [getSnippetCompletions, hname, Option.getD_none, filterThrowing_nil_snippets]
    rfl
  · simp only [getSnippetCompletions, hname, Option.getD_some, filterThrowing_nil_snippets]
    rfl

/-- Witness for C11 as amended: with `sum` typed after `{{snippet: ` the snippet
completer is installed and delivers a candidate sequence. -/
theorem getSnippetCompletions_delivers_when_installed_witness :
    swapInCorrectCompletors "\x7b\x7bsnippet: sum".toList 0 14 = .ok .snippetCompleter
      ∧ ∃ candidates, getSnippetCompletions asciiToLowerCase "\x7b\x7bsnippet: sum".toList 0 14
          (some [⟨"Orders Summary".toList, [], []⟩]) = .ok candidates :=
  ⟨by decide,
    (getSnippetCompletions_delivers_when_installed asciiToLowerCase
      "\x7b\x7bsnippet: sum".toList 0 14 (by decide)).2.2.2.1 (by decide) _⟩

end NativeQueryEditor

namespace ActionsUtils

open NativeQueryEditor (JsString)

/-! ## Lemmas on the object model -/

theorem mem_difference (value : JsString) (array others : List JsString) :
    value ∈ difference array others ↔ value ∈ array ∧ value ∉ others := by
  simp [difference]

theorem omitKeys_difference_objectKeys {V : Type} (obj : List (JsString × V))
    (ids : List JsString) :
    omitKeys obj (difference (objectKeys obj) ids)
      = obj.filter (fun entry => ids.contains entry.1) := by
  unfold omitKeys
  apply List.filter_congr
  intro entry hentry
  have hkey : entry.1 ∈ objectKeys obj := List.mem_map.mpr ⟨entry, hentry, rfl⟩
  by_cases hid : entry.1 ∈ ids
  · have hnot : entry.1 ∉ difference (objectKeys obj) ids := by
      rw [mem_difference]
      exact fun h => h.2 hid
    simp [hid, hnot]
  · have hin : entry.1 ∈ difference (objectKeys obj) ids :=
      (mem_difference _ _ _).mpr ⟨hkey, hid⟩
    simp [hid, hin]

theorem getProperty_filter_key {V : Type} (obj : List (JsString × V))
    (keep : JsString → Bool) (key : JsString) :
    getProperty (obj.filter (fun entry => keep entry.1)) key
      = if keep key = true then getProperty obj key else none := by
  induction obj with
  | nil => simp [getProperty]
  | cons entry rest ih =>
    by_cases hkeep : keep entry.1 = true
    · rw [List.filter_cons_of_pos (by simpa using hkeep)]
      by_cases hk : entry.1 = key
      · subst hk
        simp [getProperty, hkeep]
      · simp only [getProperty, hk, if_false, ih]
    · rw [List.filter_cons_of_neg (by simpa using hkeep), ih]
      by_cases hk : entry.1 = key
      · have : keep key = false := by rw [← hk]; simpa using hkeep
        simp [this]
      · simp [getProperty, hk]

theorem getProperty_eq_none_iff {V : Type} (obj : List (JsString × V)) (key : JsString) :
    getProperty obj key = none ↔ key ∉ objectKeys obj := by
  induction obj with
  | nil => simp [getProperty, objectKeys]
  | cons entry rest ih =>
    by_cases hk : entry.1 = key
    · subst hk
      constructor
      · intro h
        rw [getProperty, if_pos rfl] at h
        cases h
      · intro h
        exact absurd (List.mem_map.mpr ⟨entry, List.mem_cons_self _ _, rfl⟩) h
    · have hk2 : ¬ key = entry.1 := fun h => hk h.symm
      simp only [getProperty, hk, if_false, ih, objectKeys, List.map_cons, List.mem_cons,
        hk2, false_or]

theorem getProperty_of_mem_of_nodup {V : Type} (obj : List (JsString × V))
    (key : JsString) (value : V) (hmem : (key, value) ∈ obj)
    (hkeys : (objectKeys obj).Nodup) : getProperty obj key = some value := by
  induction obj with
  | nil => simp at hmem
  | cons entry rest ih =>
    have hnodup : entry.1 ∉ objectKeys rest ∧ (objectKeys rest).Nodup :=
      List.nodup_cons.mp hkeys
    rcases List.mem_cons.mp hmem with h | h
    · subst h
      rw [getProperty, if_pos rfl]
    · have hkey : key ∈ objectKeys rest := List.mem_map.mpr ⟨(key, value), h, rfl⟩
      have hne : ¬ entry.1 = key := fun heq => hnodup.1 (heq ▸ hkey)
      rw [getProperty, if_neg hne]
      exact ih h hnodup.2

theorem contains_ids_iff {π : Type} (parameters : List (ParameterObject π)) (key : JsString) :
    (parameters.map (fun p => p.id)).contains key = true ↔ ∃ p ∈ parameters, p.id = key := by
  simp

theorem removeOrphanSettings_fields {φ ρ π : Type} (settings : ActionFormSettings φ ρ)
    (parameters : List (ParameterObject π)) :
    (removeOrphanSettings settings parameters).fields
      = settings.fields.filter
          (fun entry => (parameters.map (fun p => p.id)).contains entry.1) := by
  simp only [removeOrphanSettings]
  exact omitKeys_difference_objectKeys settings.fields (parameters.map (fun p => p.id))

/-! ## Claims on the action form settings -/

/-- A sample run of `removeOrphanSettings`: fields `a` and `b`, parameters `b`
and `c`; only the field `b` is kept and no field `c` appears. -/
theorem removeOrphanSettings_sample :
    objectKeys (removeOrphanSettings
      (⟨[("a".toList, ⟨"string".toList, "text".toList, ()⟩),
         ("b".toList, ⟨"date".toList, "date".toList, ()⟩)], ()⟩ : ActionFormSettings Unit Unit)
      [(⟨"b".toList, [], ()⟩ : ParameterObject Unit), ⟨"c".toList, [], ()⟩]).fields
      = ["b".toList] := by
  decide

/-- C12 (`removeOrphanSettings`).  The fields of the result are exactly the
entries of `settings.fields`, in their order and with their values, whose key
is the id of some parameter; no entry appears for a parameter without a field;
every other property of `settings` is unchanged; hence every key of the result
is a parameter id, and the function is the identity when every field key is a
parameter id. -/
theorem removeOrphanSettings_keeps_parameter_fields {φ ρ π : Type}
    (settings : ActionFormSettings φ ρ) (parameters : List (ParameterObject π)) :
    (removeOrphanSettings settings parameters).fields
        = settings.fields.filter (fun entry => decide (∃ p ∈ parameters, p.id = entry.1))
      ∧ (∀ key field, (key, field) ∈ (removeOrphanSettings settings parameters).fields
          ↔ (key, field) ∈ settings.fields ∧ ∃ p ∈ parameters, p.id = key)
      ∧ (∀ key, (∃ p ∈ parameters, p.id = key) →
          getProperty (removeOrphanSettings settings parameters).fields key
            = getProperty settings.fields key)
      ∧ (∀ key, (¬ ∃ p ∈ parameters, p.id = key) →
          getProperty (removeOrphanSettings settings parameters).fields key = none)
      ∧ (removeOrphanSettings settings parameters).others = settings.others
      ∧ (∀ key ∈ objectKeys (removeOrphanSettings settings parameters).fields,
          ∃ p ∈ parameters, p.id = key)
      ∧ ((∀ key ∈ objectKeys settings.fields, ∃ p ∈ parameters, p.id = key) →
          removeOrphanSettings settings parameters = settings) := by
  have hfields := removeOrphanSettings_fields settings parameters
  have hmem : ∀ key field, (key, field) ∈ (removeOrphanSettings settings parameters).fields
      ↔ (key, field) ∈ settings.fields ∧ ∃ p ∈ parameters, p.id = key := by
    intro key field
    rw [hfields, List.mem_filter, contains_ids_iff]
  refine ⟨?_, hmem, ?_, ?_, rfl, ?_, ?_⟩
  · rw [hfields]
    apply List.filter_congr
    intro entry _
    rw [Bool.eq_iff_iff, contains_ids_iff]
    simp
  · intro key hkey
    rw [hfields, getProperty_filter_key settings.fields
      (fun k => (parameters.map (fun p => p.id)).contains k) key,
      if_pos ((contains_ids_iff parameters key).mpr hkey)]
  · intro key hkey
    rw [hfields, getProperty_filter_key settings.fields
      (fun k => (parameters.map (fun p => p.id)).contains k) key,
      if_neg (fun h => hkey ((contains_ids_iff parameters key).mp h))]
  · intro key hkey
    obtain ⟨entry, hentry, rfl⟩ := List.mem_map.mp hkey
    exact ((hmem entry.1 entry.2).mp hentry).2
  · intro hall
    have hsame : (removeOrphanSettings settings parameters).fields = settings.fields := by
      rw [hfields, List.filter_eq_self]
      intro entry hentry
      exact (contains_ids_iff parameters entry.1).mpr
        (hall entry.1 (List.mem_map.mpr ⟨entry, hentry, rfl⟩))
    cases settings with
    | mk fields others =>
      simp only [removeOrphanSettings] at hsame ⊢
      rw [hsame]

/-- A sample run of `setParameterTypesFromFieldSettings` with a date map that
knows `datetime` only and an empty field-type map: parameter `a` has a date
field with a mapped input type, `b` a date field with an unmapped one, `c` a
string field, and `d` no field. -/
theorem setParameterTypesFromFieldSettings_sample :
    (setParameterTypesFromFieldSettings
      (fun inputType =>
        if inputType = "datetime".toList then some "date/all-options".toList else none)
      (fun _ => none)
      (⟨[("a".toList, ⟨"date".toList, "datetime".toList, ()⟩),
         ("b".toList, ⟨"date".toList, "date".toList, ()⟩),
         ("c".toList, ⟨"string".toList, "text".toList, ()⟩)], ()⟩
        : ActionFormSettings Unit Unit)
      [(⟨"a".toList, [], 1⟩ : ParameterObject Nat), ⟨"b".toList, [], 2⟩,
        ⟨"c".toList, [], 3⟩, ⟨"d".toList, "number/=".toList, 4⟩])
      = [⟨"a".toList, "date/all-options".toList, 1⟩, ⟨"b".toList, "date/single".toList, 2⟩,
          ⟨"c".toList, "string/=".toList, 3⟩, ⟨"d".toList, "string/=".toList, 4⟩] := by
  simp [setParameterTypesFromFieldSettings, getParameterTypeFromFieldSettings, getProperty]

/-- C13 (`setParameterTypesFromFieldSettings`).  The result has the length and
the order of the input: the parameter at each position keeps its id and every
other property, and only its type is set.  The type is `string/=` when
`settings.fields` has no entry for the id.  When `settings.fields`, an object
with each key once, has the entry `field` for the id, the type is, for a field
of type `date`, the date-map entry of the field's input type, or `date/single`
when the map has none, and for any other field type the field-type-map entry,
or `string/=` when the map has none. -/
theorem setParameterTypesFromFieldSettings_types {φ ρ π : Type}
    (dateTypetoParameterTypeMap fieldTypeToParameterTypeMap : JsString → Option JsString)
    (settings : ActionFormSettings φ ρ) (parameters : List (ParameterObject π)) :
    (setParameterTypesFromFieldSettings dateTypetoParameterTypeMap
        fieldTypeToParameterTypeMap settings parameters).length = parameters.length
      ∧ ∀ (i : Nat) (parameter : ParameterObject π), parameters[i]? = some parameter →
          ∃ result, (setParameterTypesFromFieldSettings dateTypetoParameterTypeMap
              fieldTypeToParameterTypeMap settings parameters)[i]? = some result
            ∧ result.id = parameter.id ∧ result.others = parameter.others
            ∧ (parameter.id ∉ objectKeys settings.fields → result.type = "string/=".toList)
            ∧ (∀ field, (parameter.id, field) ∈ settings.fields →
                (objectKeys settings.fields).Nodup →
                field.fieldType = "date".toList →
                result.type
                  = match dateTypetoParameterTypeMap field.inputType with
                    | some parameterType => parameterType
                    | none => "date/single".toList)
            ∧ (∀ field, (parameter.id, field) ∈ settings.fields →
                (objectKeys settings.fields).Nodup →
                field.fieldType ≠ "date".toList →
                result.type
                  = match fieldTypeToParameterTypeMap field.fieldType with
                    | some parameterType => parameterType
                    | none => "string/=".toList) := by
  refine ⟨by simp [setParameterTypesFromFieldSettings], ?_⟩
  intro i parameter hparam
  refine ⟨{ parameter with
      type :=
        match getProperty settings.fields parameter.id with
        | some field =>
          getParameterTypeFromFieldSettings dateTypetoParameterTypeMap
            fieldTypeToParameterTypeMap field.fieldType field.inputType
        | none => "string/=".toList },
    by simp only [setParameterTypesFromFieldSettings, List.getElem?_map, hparam,
      Option.map_some'], rfl, rfl, ?_, ?_, ?_⟩
  · intro hno
    have hnone := (getProperty_eq_none_iff settings.fields parameter.id).mpr hno
    simp only [hnone]
  · intro field hmem hkeys hdate
    have hfield := getProperty_of_mem_of_nodup settings.fields parameter.id field hmem hkeys
    simp only [hfield, getParameterTypeFromFieldSettings, hdate, if_true]
    cases dateTypetoParameterTypeMap field.inputType <;> rfl
  · intro field hmem hkeys hother
    have hfield := getProperty_of_mem_of_nodup settings.fields parameter.id field hmem hkeys
    simp only [hfield, getParameterTypeFromFieldSettings, hother, if_false]
    cases fieldTypeToParameterTypeMap field.fieldType <;> rfl

/-- Witness for C13, on the sample settings and parameters: `a` (date field,
mapped input type) gets the date-map entry, `b` (date field, unmapped input
type) gets `date/single`, `c` (number field) gets the field-type-map entry,
`e` (field of an unmapped type) gets `string/=`, and `d` (no field) gets
`string/=`, each found at its own position. -/
theorem setParameterTypesFromFieldSettings_types_witness :
    (objectKeys sampleSettings.fields).Nodup
      ∧ (∃ result, (setParameterTypesFromFieldSettings sampleDateMap sampleFieldTypeMap
            sampleSettings sampleParameters)[0]? = some result
          ∧ result.id = "a".toList ∧ result.type = "date/all-options".toList)
      ∧ (∃ result, (setParameterTypesFromFieldSettings sampleDateMap sampleFieldTypeMap
            sampleSettings sampleParameters)[1]? = some result
          ∧ result.id = "b".toList ∧ result.type = "date/single".toList)
      ∧ (∃ result, (setParameterTypesFromFieldSettings sampleDateMap sampleFieldTypeMap
            sampleSettings sampleParameters)[2]? = some result
          ∧ result.id = "c".toList ∧ result.type = "number/=".toList)
      ∧ (∃ result, (setParameterTypesFromFieldSettings sampleDateMap sampleFieldTypeMap
            sampleSettings sampleParameters)[3]? = some result
          ∧ result.id = "d".toList ∧ result.type = "string/=".toList)
      ∧ (∃ result, (setParameterTypesFromFieldSettings sampleDateMap sampleFieldTypeMap
            sampleSettings sampleParameters)[4]? = some result
          ∧ result.id = "e".toList ∧ result.type = "string/=".toList) := by
  have hkeys : (objectKeys sampleSettings.fields).Nodup := by decide
  have h := (setParameterTypesFromFieldSettings_types sampleDateMap sampleFieldTypeMap
    sampleSettings sampleParameters).2
  refine ⟨hkeys, ?_, ?_, ?_, ?_, ?_⟩
  · obtain ⟨result, hres, hid, _, _, hdate, _⟩ := h 0 ⟨"a".toList, [], 1⟩ rfl
    exact ⟨result, hres, hid,
      hdate ⟨"date".toList, "datetime".toList, ()⟩ (by simp [sampleSettings]) hkeys rfl⟩
  · obtain ⟨result, hres, hid, _, _, hdate, _⟩ := h 1 ⟨"b".toList, [], 2⟩ rfl
    exact ⟨result, hres, hid,
      hdate ⟨"date".toList, "date".toList, ()⟩ (by simp [sampleSettings]) hkeys rfl⟩
  · obtain ⟨result, hres, hid, _, _, _, hother⟩ := h 2 ⟨"c".toList, [], 3⟩ rfl
    exact ⟨result, hres, hid,
      hother ⟨"number".toList, "number".toList, ()⟩ (by simp [sampleSettings]) hkeys
        (by decide)⟩
  · obtain ⟨result, hres, hid, _, hnone, _, _⟩ := h 3 ⟨"d".toList, "number/=".toList, 4⟩ rfl
    exact ⟨result, hres, hid, hnone (by decide)⟩
  · obtain ⟨result, hres, hid, _, _, _, hother⟩ := h 4 ⟨"e".toList, [], 5⟩ rfl
    exact ⟨result, hres, hid,
      hother ⟨"category".toList, "dropdown".toList, ()⟩ (by simp [sampleSettings]) hkeys
        (by decide)⟩

end ActionsUtils
